import Mathlib

set_option maxRecDepth 8000

/-!
Verification of the threeMenu carousel engine (src/unnamed/part_000, second
revision; helper item class in src/src/MenuItem.js).

The ring of menu items is a cyclic doubly-linked list of `MenuNode` objects.
We embed the heap of nodes as a function arena `Nat → Option MenuNode`: each
JavaScript `new MenuNode(...)` allocates the next address (counted by `alloc`),
and pointer identity of nodes is address equality.  The module-level mutable
variables of the source file (`keyPressed`, `clicked`, `isMoving`, `leftEdge`,
`rightEdge`, `firstNode`, `latestNode`, `nodeToSelect`, `nextNodeID`) form the
`Globals` structure, shared by every `Menu` instance; the per-instance fields
(`itemTray`, `itemSelected`, `opened`, ...) form the `Menu` structure.

Positions are integer 3-vectors (the layout arithmetic of the source is exact
linear arithmetic on the spacing vector, so integers capture it faithfully).
`gsap.to` animations are fire-and-forget: the logical state is updated
synchronously, and a position written here denotes the settled value the
animation targets (targets are computed synchronously from the positions at
call time, which we pass as a `snap`shot).  Scale/opacity animations, the
raycaster, and DOM event plumbing are external collaborators and carry no ring
state; they are omitted.  A JavaScript crash (dereferencing `null`/`undefined`)
or a non-terminating `do ... while` traversal is modelled by `Option.none`;
every loop is run with fuel `alloc + 1`, enough for one full traversal of any
well-formed ring.
-/

namespace ThreeMenu

/-- Integer 3-vector standing for a THREE.js `position` value. -/
structure Vec3 where
  x : Int
  y : Int
  z : Int
deriving DecidableEq, Repr

def Vec3.add (a b : Vec3) : Vec3 := ⟨a.x + b.x, a.y + b.y, a.z + b.z⟩

def Vec3.sub (a b : Vec3) : Vec3 := ⟨a.x - b.x, a.y - b.y, a.z - b.z⟩

def Vec3.neg (a : Vec3) : Vec3 := ⟨-a.x, -a.y, -a.z⟩

def Vec3.smul (c : Int) (a : Vec3) : Vec3 := ⟨c * a.x, c * a.y, c * a.z⟩

def Vec3.zero : Vec3 := ⟨0, 0, 0⟩

/-- MenuNode (part_000 lines 984-992): one slot of the circular linked list.
`next`/`prev` are arena addresses; `pos` is the position of the wrapped mesh
(`node.node.item.position`).  The constructor is declared with parameters
`(_node, _action, _id)`, so the call site `new MenuNode(item, _doOnSelect,
this.itemTray.length, nextNodeID)` binds `id := itemTray.length` and drops the
fourth argument.  The opaque mesh payload and the selection callback carry no
ring state and are omitted. -/
structure MenuNode where
  id : Nat
  selected : Bool
  next : Nat
  prev : Nat
  pos : Vec3
deriving DecidableEq, Repr

/-- Heap update at one address. -/
def upd (mem : Nat → Option MenuNode) (i : Nat) (v : MenuNode) :
    Nat → Option MenuNode :=
  fun j => if j = i then some v else mem j

/-- Module-level mutable variables of part_000 (lines 402-408) plus the node
arena.  `alloc` counts allocations (it is the number of `MenuNode` objects ever
created, used as loop fuel and as the next fresh address). -/
structure Globals where
  keyPressed : Bool
  clicked : Bool
  isMoving : Bool
  leftEdge : Option Nat
  rightEdge : Option Nat
  firstNode : Option Nat
  latestNode : Option Nat
  nodeToSelect : Option Nat
  nextNodeID : Nat
  alloc : Nat
  mem : Nat → Option MenuNode

/-- Module state at script load: `keyPressed = false, clicked = false,
isMoving = false`, all node references `undefined`, `nextNodeID = 0`. -/
def freshGlobals : Globals :=
  { keyPressed := false, clicked := false, isMoving := false,
    leftEdge := none, rightEdge := none, firstNode := none,
    latestNode := none, nodeToSelect := none, nextNodeID := 0,
    alloc := 0, mem := fun _ => none }

/-- Per-instance fields of the Menu constructor (lines 416-433).  `itemTray`
stores arena addresses in push order.  Rendering-only fields (`scene`,
`camera`, `itemGroup`, `menuRotate`, key bindings, durations) are omitted. -/
structure Menu where
  itemTray : List Nat
  itemSelected : Nat
  opened : Bool
  enabled : Bool
  revolvingMenu : Bool
  gapBetweenItems : Vec3
  itemCount : Nat
  openBehavior : Nat
deriving Repr

/-- Optional `_properties` argument of the constructor.  Only the fields the
claims exercise are modelled; `gapBetweenItems` is taken all-or-nothing (the
source validates each component separately with `typeof ... === "number"`). -/
structure MenuProps where
  gapBetweenItems : Option Vec3
  revolvingMenu : Option Bool
  openBehavior : Option Nat

/-- JavaScript idiom `(v) ? v : dflt` on an optional boolean property: a
stored `false` is falsy, so it falls through to the default. -/
def jsTruthyOr (v : Option Bool) (dflt : Bool) : Bool :=
  match v with
  | some b => if b then b else dflt
  | none => dflt

/-- Menu.prototype.init (lines 443-481): resets the module-level counters and
references (`nextNodeID = 0; nodeToSelect = null; leftEdge = rightEdge =
null`) and installs the instance configuration.  `revolvingMenu` uses the
truthiness idiom `(_properties && _properties.revolvingMenu) ?
_properties.revolvingMenu : true` (line 473); `openBehavior` likewise with
default `OPEN_NOTRANSITION = 0` (line 474). -/
def Menu.init (props : Option MenuProps) (g : Globals) (m : Menu) :
    Globals × Menu :=
  let g := { g with nextNodeID := 0, nodeToSelect := none,
                    leftEdge := none, rightEdge := none }
  let gap : Vec3 :=
    match props with
    | some p => match p.gapBetweenItems with
      | some v => v
      | none => ⟨1, 0, 0⟩
    | none => ⟨1, 0, 0⟩
  let rev : Bool :=
    match props with
    | some p => jsTruthyOr p.revolvingMenu true
    | none => true
  let ob : Nat :=
    match props with
    | some p => match p.openBehavior with
      | some b => if b ≠ 0 then b else 0
      | none => 0
    | none => 0
  (g, { m with gapBetweenItems := gap, revolvingMenu := rev, openBehavior := ob })

/-- Menu constructor (lines 416-433): instance fields, then `init` (the
`reload` call only re-registers event listeners and camera state). -/
def Menu.new (props : Option MenuProps) (g : Globals) : Globals × Menu :=
  let m : Menu :=
    { itemTray := [], itemSelected := 0, opened := false, enabled := true,
      revolvingMenu := true, gapBetweenItems := ⟨1, 0, 0⟩, itemCount := 0,
      openBehavior := 0 }
  Menu.init props g m

/-- Loop body of Menu.prototype.repositionNodes (lines 562-590), a
`do ... while (current.id != firstNode.id)` traversal along `next` from
`firstNode`.  Each iteration advances the running `pos` by `gap` and writes it
into the current node; `leftEdge` is captured when `(nextNodeID === 2 &&
current.id === 1) || (current.id === median + 1)`, and at `current.id ===
median` the running position is negated (plus one extra `gap` when the total
is odd) and `rightEdge` is captured. -/
def repoLoop (gap : Vec3) (total median : Nat) (isEven : Bool) (firstId : Nat) :
    Nat → (Nat → Option MenuNode) → Option Nat → Option Nat → Vec3 → Nat →
    Option ((Nat → Option MenuNode) × Option Nat × Option Nat × Vec3)
  | 0, _, _, _, _, _ => none
  | fuel + 1, mem, le, re, pos, cur =>
    match mem cur with
    | none => none
    | some nd =>
      let pos1 := Vec3.add pos gap
      let nd1 := { nd with pos := pos1 }
      let mem1 := upd mem cur nd1
      let le1 := if (total = 2 ∧ nd1.id = 1) ∨ nd1.id = median + 1
                 then some cur else le
      let mf : Int := if isEven then 0 else 1
      let pos2 := if nd1.id = median
                  then Vec3.neg (Vec3.add pos1 (Vec3.smul mf gap)) else pos1
      let re1 := if nd1.id = median then some cur else re
      match mem1 nd1.next with
      | none => none
      | some nnd =>
        if nnd.id = firstId then some (mem1, le1, re1, pos2)
        else repoLoop gap total median isEven firstId fuel mem1 le1 re1 pos2 nd1.next

/-- Menu.prototype.repositionNodes (lines 544-599).  `pos` starts at `-gap`,
`total = nextNodeID`, `median = floor(total / 2)`.  The itemGroup offset
(lines 594-596) moves the parent group, not the node positions, and the
OPEN_GROW scale zeroing touches only scales; both are omitted. -/
def Menu.repositionNodes (g : Globals) (m : Menu) : Option (Globals × Menu) :=
  let pos0 := Vec3.sub Vec3.zero m.gapBetweenItems
  let total := g.nextNodeID
  let isEven := total % 2 = 0
  let median := total / 2
  match g.firstNode with
  | none => none
  | some f =>
    match g.mem f with
    | none => none
    | some fnd =>
      match repoLoop m.gapBetweenItems total median isEven fnd.id
              (g.alloc + 1) g.mem g.leftEdge g.rightEdge pos0 f with
      | none => none
      | some (mem1, le1, re1, _) =>
        some ({ g with mem := mem1, leftEdge := le1, rightEdge := re1 }, m)

/-- Menu.prototype.add (lines 489-542).  A fresh node gets
`id = itemTray.length`; when `nextNodeID == 0` it becomes `firstNode`,
`latestNode`, the selected node and `nodeToSelect`.  It is then linked in
after `latestNode` and before `firstNode`, `nextNodeID` is incremented, the
tray grows, and `repositionNodes` runs.  Mesh tagging (`assignTags`), scale
property capture and the scene group are rendering bookkeeping and are
omitted. -/
def Menu.add (g : Globals) (m : Menu) : Option (Globals × Menu) :=
  let idx := g.alloc
  let node : MenuNode :=
    { id := m.itemTray.length, selected := false, next := 0, prev := 0,
      pos := Vec3.zero }
  let g := { g with alloc := idx + 1, mem := upd g.mem idx node }
  let g :=
    if g.nextNodeID = 0 then
      { g with firstNode := some idx, latestNode := some idx,
               mem := upd g.mem idx { node with selected := true },
               nodeToSelect := some idx }
    else g
  match g.latestNode, g.firstNode with
  | some lat, some fst =>
    match g.mem idx with
    | none => none
    | some nd =>
      let g := { g with mem := upd g.mem idx { nd with prev := lat, next := fst } }
      match g.mem lat with
      | none => none
      | some latNd =>
        let g := { g with mem := upd g.mem lat { latNd with next := idx } }
        match g.mem fst with
        | none => none
        | some fstNd =>
          let g := { g with mem := upd g.mem fst { fstNd with prev := idx },
                            latestNode := some idx,
                            nextNodeID := g.nextNodeID + 1 }
          let m := { m with itemTray := m.itemTray ++ [idx],
                            itemCount := m.itemCount + 1 }
          Menu.repositionNodes g m
  | _, _ => none

/-- Menu.prototype.open (lines 741-802): no-op when already opened; otherwise
the OPEN_GROW / OPEN_TRANSPARENCY branches traverse the ring from `firstNode`
scheduling scale/opacity animations (crashing on an undefined `firstNode`),
and finally `opened = enabled = true`. -/
def Menu.openMenu (g : Globals) (m : Menu) : Option (Globals × Menu) :=
  if m.opened then some (g, m)
  else if m.openBehavior = 1 ∨ m.openBehavior = 2 then
    match g.firstNode with
    | none => none
    | some f =>
      match g.mem f with
      | none => none
      | some _ => some (g, { m with opened := true, enabled := true })
  else some (g, { m with opened := true, enabled := true })

/-- Menu.prototype.close (lines 804-817): no-op when not opened; otherwise the
ring is traversed from `firstNode` scheduling scale-to-zero animations (a
crash when `firstNode` is undefined), and `opened = enabled = false`.  The
`selected` flags of the nodes are not touched. -/
def Menu.closeMenu (g : Globals) (m : Menu) : Option (Globals × Menu) :=
  if m.opened = false then some (g, m)
  else
    match g.firstNode with
    | none => none
    | some f =>
      match g.mem f with
      | none => none
      | some _ => some (g, { m with opened := false, enabled := false })

/-- Loop body of Menu.prototype.moveToNext (lines 645-670), traversing via
`next` from `firstNode`.  When the current node is `leftEdge` it is teleported
to `leftEdge.prev.position + gap` (read from `snap`, the positions at call
time: the per-node `gsap.to` translations have not yet applied when the
teleport reads them) and `rightEdge := leftEdge`.  Every node then receives a
`gsap.to` translation by `-gap`, whose target is computed synchronously from
the node's position at schedule time; position fields store that settled
target.  The selected node hands `nodeToSelect` to its `next` and is
deselected. -/
def nextLoop (gap : Vec3) (firstId : Nat) (snap : Nat → Option MenuNode)
    (le : Option Nat) :
    Nat → (Nat → Option MenuNode) → Option Nat → Option Nat → Nat →
    Option ((Nat → Option MenuNode) × Option Nat × Option Nat)
  | 0, _, _, _, _ => none
  | fuel + 1, mem, re, nts, cur =>
    match mem cur with
    | none => none
    | some nd =>
      let telePos : Option Vec3 :=
        if some cur = le then (snap nd.prev).map (fun pnd => Vec3.add pnd.pos gap)
        else some nd.pos
      match telePos with
      | none => none
      | some ps =>
        let re1 := if some cur = le then some cur else re
        let settled := Vec3.sub ps gap
        let nts1 := if nd.selected then some nd.next else nts
        let nd1 := if nd.selected then { nd with pos := settled, selected := false }
                   else { nd with pos := settled }
        let mem1 := upd mem cur nd1
        match mem1 nd.next with
        | none => none
        | some nnd =>
          if nnd.id = firstId then some (mem1, re1, nts1)
          else nextLoop gap firstId snap le fuel mem1 re1 nts1 nd.next

/-- Menu.prototype.moveToNext (lines 639-676).  Guard (line 641): when the
menu is closed, `nextNodeID <= 1`, a rotation is in flight, or the menu is
non-revolving with `itemSelected >= itemTray.length - 1`, the call only clears
`keyPressed`.  Otherwise the ring is traversed (see `nextLoop`), then
`leftEdge = leftEdge.next`, the node in `nodeToSelect` is selected and
`itemSelected = nodeToSelect.id`, and the in-flight flag is released. -/
def Menu.moveToNext (g : Globals) (m : Menu) : Option (Globals × Menu) :=
  if m.opened = false ∨ g.nextNodeID ≤ 1 ∨ g.isMoving = true ∨
     (m.revolvingMenu = false ∧ (m.itemTray.length : Int) - 1 ≤ (m.itemSelected : Int)) then
    some ({ g with keyPressed := false }, m)
  else
    match g.firstNode with
    | none => none
    | some f =>
      match g.mem f with
      | none => none
      | some fnd =>
        let g1 := { g with isMoving := true }
        match nextLoop m.gapBetweenItems fnd.id g1.mem g1.leftEdge
                (g1.alloc + 1) g1.mem g1.rightEdge g1.nodeToSelect f with
        | none => none
        | some (mem1, re1, nts1) =>
          match g1.leftEdge with
          | none => none
          | some le =>
            match mem1 le with
            | none => none
            | some lend =>
              match nts1 with
              | none => none
              | some ntsIdx =>
                match mem1 ntsIdx with
                | none => none
                | some ntsNd =>
                  some ({ g1 with
                            mem := upd mem1 ntsIdx { ntsNd with selected := true },
                            leftEdge := some lend.next,
                            rightEdge := re1,
                            nodeToSelect := some ntsIdx,
                            isMoving := false },
                        { m with itemSelected := ntsNd.id })

/-- Loop body of Menu.prototype.moveToPrev (lines 684-710), traversing via
`prev` from `firstNode`: the mirror image of `nextLoop`.  `rightEdge` is
teleported to `rightEdge.next.position - gap` and becomes the new `leftEdge`;
every node translates by `+gap`; the selected node hands `nodeToSelect` to its
`prev`. -/
def prevLoop (gap : Vec3) (firstId : Nat) (snap : Nat → Option MenuNode)
    (re : Option Nat) :
    Nat → (Nat → Option MenuNode) → Option Nat → Option Nat → Nat →
    Option ((Nat → Option MenuNode) × Option Nat × Option Nat)
  | 0, _, _, _, _ => none
  | fuel + 1, mem, le, nts, cur =>
    match mem cur with
    | none => none
    | some nd =>
      let telePos : Option Vec3 :=
        if some cur = re then (snap nd.next).map (fun pnd => Vec3.sub pnd.pos gap)
        else some nd.pos
      match telePos with
      | none => none
      | some ps =>
        let le1 := if some cur = re then some cur else le
        let settled := Vec3.add ps gap
        let nts1 := if nd.selected then some nd.prev else nts
        let nd1 := if nd.selected then { nd with pos := settled, selected := false }
                   else { nd with pos := settled }
        let mem1 := upd mem cur nd1
        match mem1 nd.prev with
        | none => none
        | some pnd2 =>
          if pnd2.id = firstId then some (mem1, le1, nts1)
          else prevLoop gap firstId snap re fuel mem1 le1 nts1 nd.prev

/-- Menu.prototype.moveToPrev (lines 678-716).  Guard (line 680): closed menu,
`nextNodeID <= 1`, in-flight rotation, or non-revolving with
`itemSelected <= 0` clears `keyPressed` only.  Otherwise the traversal runs
(see `prevLoop`), then `rightEdge = rightEdge.prev`, the node in
`nodeToSelect` is selected, `itemSelected = nodeToSelect.id`. -/
def Menu.moveToPrev (g : Globals) (m : Menu) : Option (Globals × Menu) :=
  if m.opened = false ∨ g.nextNodeID ≤ 1 ∨ g.isMoving = true ∨
     (m.revolvingMenu = false ∧ (m.itemSelected : Int) ≤ 0) then
    some ({ g with keyPressed := false }, m)
  else
    match g.firstNode with
    | none => none
    | some f =>
      match g.mem f with
      | none => none
      | some fnd =>
        let g1 := { g with isMoving := true }
        match prevLoop m.gapBetweenItems fnd.id g1.mem g1.rightEdge
                (g1.alloc + 1) g1.mem g1.leftEdge g1.nodeToSelect f with
        | none => none
        | some (mem1, le1, nts1) =>
          match g1.rightEdge with
          | none => none
          | some re =>
            match mem1 re with
            | none => none
            | some rend =>
              match nts1 with
              | none => none
              | some ntsIdx =>
                match mem1 ntsIdx with
                | none => none
                | some ntsNd =>
                  some ({ g1 with
                            mem := upd mem1 ntsIdx { ntsNd with selected := true },
                            leftEdge := le1,
                            rightEdge := some rend.prev,
                            nodeToSelect := some ntsIdx,
                            isMoving := false },
                        { m with itemSelected := ntsNd.id })

/-- Observable outcome of Menu.prototype.selectItem. -/
inductive SelectOutcome where
  | notPerformed
  | performed (idx : Nat)
deriving DecidableEq, Repr

/-- Menu.prototype.selectItem (lines 718-736).  Guard: a closed or disabled
menu only clears `keyPressed` (outcome `notPerformed`).  Otherwise
`nodeToSelect.node` is dereferenced — a TypeError when `nodeToSelect` is null
(`none` here) — the scale pulse is scheduled and the node's callback fires on
completion (outcome `performed` with the node's address; scales are not
modelled, so the state is otherwise unchanged). -/
def Menu.selectItem (g : Globals) (m : Menu) :
    Option (Globals × Menu × SelectOutcome) :=
  if m.opened = false ∨ m.enabled = false then
    some ({ g with keyPressed := false }, m, SelectOutcome.notPerformed)
  else
    match g.nodeToSelect with
    | none => none
    | some i =>
      match g.mem i with
      | none => none
      | some _ => some (g, m, SelectOutcome.performed i)

/-- Loop of the traversalCheck helper (lines 924-935): walk from
`selectedNode` towards the node whose id equals `endNode.id`, stepping via
`prev` when `isLeft` and via `next` otherwise, answering whether `targetID`
is met on the way (end inclusive). -/
def tcLoop (mem : Nat → Option MenuNode) (endId targetID : Nat) (isLeft : Bool) :
    Nat → Nat → Option Bool
  | 0, _ => none
  | fuel + 1, cur =>
    match mem cur with
    | none => none
    | some nd =>
      if nd.id ≠ endId then
        if nd.id = targetID then some true
        else tcLoop mem endId targetID isLeft fuel (if isLeft then nd.prev else nd.next)
      else if nd.id = targetID then some true
      else some false

/-- traversalCheck (lines 924-935); dereferencing a null `endNode` or
`selectedNode` is a crash. -/
def traversalCheck (g : Globals) (selNode endNode : Option Nat)
    (targetID : Nat) (isLeft : Bool) : Option Bool :=
  match selNode, endNode with
  | some s, some e =>
    match g.mem e with
    | none => none
    | some endNd => tcLoop g.mem endNd.id targetID isLeft (g.alloc + 1) s
  | _, _ => none

/-- Observable outcome of the clickItem dispatch.  `unknownTarget` is
modelled from the spec: spec section 7 demands that a target id absent from
the ring "fails with an UnknownTarget condition"; the code has no such signal
and this constructor is never produced by `Menu.clickResolve`. -/
inductive ClickOutcome where
  | selectAction (idx : Nat)
  | rotatedNext (steps : Nat)
  | rotatedPrev (steps : Nat)
  | noAction
  | unknownTarget
deriving DecidableEq, Repr

/-- Repeated single-step rotation of Menu.prototype.clickItem (lines 902-919):
one `moveToNext`/`moveToPrev`, then, while `nodeToSelect.id` differs from the
target tag, the same call again on an interval timer.  Returns the state when
the tag is reached together with the number of rotations issued. -/
def rotateUntil (tag : Nat) (forward : Bool) :
    Nat → Globals → Menu → Nat → Option (Globals × Menu × Nat)
  | 0, _, _, _ => none
  | fuel + 1, g, m, count =>
    match (if forward then Menu.moveToNext g m else Menu.moveToPrev g m) with
    | none => none
    | some (g1, m1) =>
      match g1.nodeToSelect with
      | none => none
      | some i =>
        match g1.mem i with
        | none => none
        | some nd =>
          if nd.id = tag then some (g1, m1, count + 1)
          else rotateUntil tag forward fuel g1 m1 (count + 1)

/-- Dispatch of Menu.prototype.clickItem (lines 886-922) for a raycast hit
carrying `itemTag = tag` (the raycast itself is an external collaborator).
Guard: a closed menu or a debounced click does nothing.  If the tag is the
current selection's id the item is selected; else if `traversalCheck` finds it
on the forward arc to `rightEdge` the repeated `moveToNext` runs; else if on
the backward arc to `leftEdge` the repeated `moveToPrev` runs; otherwise
nothing happens. -/
def Menu.clickResolve (g : Globals) (m : Menu) (tag : Nat) :
    Option (Globals × Menu × ClickOutcome) :=
  if m.opened = false ∨ g.clicked = true then some (g, m, ClickOutcome.noAction)
  else
    match g.nodeToSelect with
    | none => none
    | some s =>
      match g.mem s with
      | none => none
      | some snd =>
        if snd.id = tag then
          match Menu.selectItem g m with
          | none => none
          | some (g1, m1, _) => some (g1, m1, ClickOutcome.selectAction s)
        else
          match traversalCheck g (some s) g.rightEdge tag false with
          | none => none
          | some true =>
            match rotateUntil tag true (g.alloc + 1) g m 0 with
            | none => none
            | some (g1, m1, k) => some (g1, m1, ClickOutcome.rotatedNext k)
          | some false =>
            match traversalCheck g (some s) g.leftEdge tag true with
            | none => none
            | some true =>
              match rotateUntil tag false (g.alloc + 1) g m 0 with
              | none => none
              | some (g1, m1, k) => some (g1, m1, ClickOutcome.rotatedPrev k)
            | some false => some (g, m, ClickOutcome.noAction)

/-- Iterated Menu.prototype.add. -/
def addN : Nat → Globals → Menu → Option (Globals × Menu)
  | 0, g, m => some (g, m)
  | n + 1, g, m =>
    match addN n g m with
    | none => none
    | some (g1, m1) => Menu.add g1 m1

/-- Fresh module state, one constructed Menu, then n `add` calls. -/
def buildMenu (n : Nat) (props : Option MenuProps) : Option (Globals × Menu) :=
  let s := Menu.new props freshGlobals
  addN n s.1 s.2

/-- Properties object carrying only a spacing vector. -/
def gapProps (gap : Vec3) : Option MenuProps :=
  some { gapBetweenItems := some gap, revolvingMenu := none, openBehavior := none }

/-! Closed forms for the layout and the built states, used to state what the
source computes. -/

/-- Median compensation of the layout: one extra gap for odd totals. -/
def mfInt (n : Nat) : Int := if n % 2 = 0 then 0 else 1

/-- Coefficient of `gap` in the slot the layout assigns to traversal index
`k`: indices up to the median keep `k`, indices past it continue from the
negated running position. -/
def layoutCoef (n k : Nat) : Int :=
  if k ≤ n / 2 then (k : Int) else (k : Int) - 2 * ((n / 2 : Nat) : Int) - mfInt n

/-- Slot position of traversal index `k` in an n-ring with spacing `gap`. -/
def layoutPos (n : Nat) (gap : Vec3) (k : Nat) : Vec3 :=
  Vec3.smul (layoutCoef n k) gap

/-- Running-position coefficient on entry to layout iteration `j`. -/
def entryCoef (n j : Nat) : Int :=
  if j ≤ n / 2 then (j : Int) - 1
  else (j : Int) - 1 - 2 * ((n / 2 : Nat) : Int) - mfInt n

/-- Running position on entry to layout iteration `j`. -/
def entryPos (n : Nat) (gap : Vec3) (j : Nat) : Vec3 :=
  Vec3.smul (entryCoef n j) gap

/-- Value of the `leftEdge` accumulator after the first `j` layout
iterations, starting from `le0`. -/
def entryLe (n : Nat) (le0 : Option Nat) (j : Nat) : Option Nat :=
  if n = 2 then (if 2 ≤ j then some 1 else le0)
  else if n / 2 + 1 < j then some (n / 2 + 1) else le0

/-- Value of the `rightEdge` accumulator after the first `j` layout
iterations, starting from `re0`. -/
def entryRe (n : Nat) (re0 : Option Nat) (j : Nat) : Option Nat :=
  if n / 2 < j then some (n / 2) else re0

/-- Heap after the first `j` layout iterations: positions of addresses below
`j` rewritten to their slots, the rest untouched. -/
def repoPatch (n : Nat) (gap : Vec3) (mem : Nat → Option MenuNode) (j : Nat) :
    Nat → Option MenuNode :=
  fun k => if k < j then (mem k).map (fun nd => { nd with pos := layoutPos n gap k })
           else mem k

/-- Node `k` of the ring obtained by `n` adds on a fresh module state. -/
def buildNode (n : Nat) (gap : Vec3) (k : Nat) : MenuNode :=
  { id := k, selected := k == 0, next := (k + 1) % n, prev := (k + n - 1) % n,
    pos := layoutPos n gap k }

/-- leftEdge after building an n-ring. -/
def leOf (n : Nat) : Option Nat := entryLe n none n

/-- rightEdge after building an n-ring. -/
def reOf (n : Nat) : Option Nat := entryRe n none n

/-- Module state after `n` adds on a fresh module state. -/
def buildGlobals (n : Nat) (gap : Vec3) : Globals :=
  { keyPressed := false, clicked := false, isMoving := false,
    leftEdge := leOf n, rightEdge := reOf n,
    firstNode := if n = 0 then none else some 0,
    latestNode := if n = 0 then none else some (n - 1),
    nodeToSelect := if n = 0 then none else some 0,
    nextNodeID := n, alloc := n,
    mem := fun k => if k < n then some (buildNode n gap k) else none }

/-- Instance state after `n` adds on a freshly constructed menu with spacing
`gap`, default revolving flag and default open behavior. -/
def buildInst (n : Nat) (gap : Vec3) : Menu :=
  { itemTray := List.range n, itemSelected := 0, opened := false,
    enabled := true, revolvingMenu := true, gapBetweenItems := gap,
    itemCount := n, openBehavior := 0 }

/-- Ring states over which the rotation lemmas are proved: a standard n-ring
(address k holds id k, links (k+1)%n and (k+n-1)%n, position p k, the single
selected node at s), module references at s, l, r, menu open/enabled,
revolving, no rotation in flight.  Every state reachable from a built ring by
open and completed rotations has this shape. -/
abbrev GoodState (g : Globals) (m : Menu) (n s l r : Nat) (p : Nat → Vec3) : Prop :=
  2 ≤ n ∧ g.alloc = n ∧ g.nextNodeID = n ∧ g.firstNode = some 0 ∧
  (∀ k, k < n → g.mem k =
    some { id := k, selected := k == s, next := (k + 1) % n,
           prev := (k + n - 1) % n, pos := p k }) ∧
  s < n ∧ g.nodeToSelect = some s ∧
  g.leftEdge = some l ∧ l < n ∧ g.rightEdge = some r ∧ r < n ∧
  m.opened = true ∧ m.enabled = true ∧ m.revolvingMenu = true ∧
  g.isMoving = false

/-- Settled position after one completed moveToNext with old leftEdge `l`:
the teleported node nets its predecessor's old position, every other node
translates by `-gap`. -/
def nextSettled (n l : Nat) (gap : Vec3) (p : Nat → Vec3) (k : Nat) : Vec3 :=
  if k = l then p ((l + n - 1) % n) else Vec3.sub (p k) gap

/-- Heap after the first `j` iterations of the moveToNext traversal. -/
def nextPatch (n l : Nat) (gap : Vec3) (p : Nat → Vec3)
    (mem : Nat → Option MenuNode) (j : Nat) : Nat → Option MenuNode :=
  fun k =>
    if k < j then
      some { id := k, selected := false, next := (k + 1) % n,
             prev := (k + n - 1) % n, pos := nextSettled n l gap p k }
    else mem k

/-- Settled position after one completed moveToPrev with old rightEdge `r`:
the teleported node nets its successor's old position, every other node
translates by `+gap`. -/
def prevSettled (n r : Nat) (gap : Vec3) (p : Nat → Vec3) (k : Nat) : Vec3 :=
  if k = r then p ((r + 1) % n) else Vec3.add (p k) gap

/-- Heap once the moveToPrev traversal has processed node 0 and every node
above `j`. -/
def prevPatch (n r : Nat) (gap : Vec3) (p : Nat → Vec3)
    (mem : Nat → Option MenuNode) (j : Nat) : Nat → Option MenuNode :=
  fun k =>
    if k = 0 ∨ (j < k ∧ k < n) then
      some { id := k, selected := false, next := (k + 1) % n,
             prev := (k + n - 1) % n, pos := prevSettled n r gap p k }
    else mem k

/-! Observation helpers: ids and flags read back through the module-level
references, as a caller of the library would see them. -/

/-- Id of the node referenced by `nodeToSelect`. -/
def selIdOf (s : Globals × Menu) : Option Nat :=
  s.1.nodeToSelect.bind (fun i => (s.1.mem i).map (fun nd => nd.id))

/-- Id of the node referenced by `leftEdge`. -/
def leftIdOf (s : Globals × Menu) : Option Nat :=
  s.1.leftEdge.bind (fun i => (s.1.mem i).map (fun nd => nd.id))

/-- Id of the node referenced by `rightEdge`. -/
def rightIdOf (s : Globals × Menu) : Option Nat :=
  s.1.rightEdge.bind (fun i => (s.1.mem i).map (fun nd => nd.id))

/-- Selected flag of the node at address `k`. -/
def selFlagOf (s : Globals × Menu) (k : Nat) : Option Bool :=
  (s.1.mem k).map (fun nd => nd.selected)

/-- Position of the node at address `k`. -/
def posOf (s : Globals × Menu) (k : Nat) : Option Vec3 :=
  (s.1.mem k).map (fun nd => nd.pos)

/-- Kleisli step: open the menu. -/
def openAfter (o : Option (Globals × Menu)) : Option (Globals × Menu) :=
  o.bind (fun s => Menu.openMenu s.1 s.2)

/-- Kleisli step: close the menu. -/
def closeAfter (o : Option (Globals × Menu)) : Option (Globals × Menu) :=
  o.bind (fun s => Menu.closeMenu s.1 s.2)

/-- Kleisli step: one `moveToNext`. -/
def nextAfter (o : Option (Globals × Menu)) : Option (Globals × Menu) :=
  o.bind (fun s => Menu.moveToNext s.1 s.2)

/-- Kleisli step: one `moveToPrev`. -/
def prevAfter (o : Option (Globals × Menu)) : Option (Globals × Menu) :=
  o.bind (fun s => Menu.moveToPrev s.1 s.2)

/-- Properties object requesting a non-revolving menu, as a caller would pass
`{revolvingMenu: false}`. -/
def nonRevolvingProps : Option MenuProps :=
  some { gapBetweenItems := none, revolvingMenu := some false, openBehavior := none }

/-- Two-instance scenario for the shared module state: a first menu with three
items is built and opened, then a second Menu is constructed on the same
module state.  The triple is (module globals, second instance, first
instance). -/
def crossStates : Option (Globals × Menu × Menu) :=
  (openAfter (buildMenu 3 none)).map (fun s =>
    ((Menu.new none s.1).1, (Menu.new none s.1).2, s.2))

/-- Two `add` calls on the second instance of `crossStates`. -/
def crossAfterAdds : Option (Globals × Menu × Menu) :=
  crossStates.bind (fun t =>
    (Menu.add t.1 t.2.1).bind (fun u =>
      (Menu.add u.1 u.2).map (fun v => (v.1, v.2, t.2.2))))

/-- A `moveToNext` invoked through the FIRST instance after `crossAfterAdds`:
the traversal runs over whatever ring the module-level references point to. -/
def crossNav : Option (Globals × Menu) :=
  crossAfterAdds.bind (fun t => Menu.moveToNext t.1 t.2.2)

/-- Concrete witness state: a freshly built and opened 4-item ring. -/
def wOpen4 : Globals × Menu :=
  (openAfter (buildMenu 4 none)).getD (freshGlobals, (Menu.new none freshGlobals).2)

/-- Concrete witness state: a freshly built and opened 5-item ring. -/
def wOpen5 : Globals × Menu :=
  (openAfter (buildMenu 5 none)).getD (freshGlobals, (Menu.new none freshGlobals).2)

/-- Ring states closed under the user-facing command alphabet: the standard
n-ring shape of `GoodState` without requiring the menu open; `enabled` tracks
`opened` whenever the menu is open (open sets both, close clears both). -/
abbrev RingState (g : Globals) (m : Menu) (n s l r : Nat)
    (p : Nat → Vec3) : Prop :=
  2 ≤ n ∧ g.alloc = n ∧ g.nextNodeID = n ∧ g.firstNode = some 0 ∧
  (∀ k, k < n → g.mem k =
    some { id := k, selected := k == s, next := (k + 1) % n,
           prev := (k + n - 1) % n, pos := p k }) ∧
  s < n ∧ g.nodeToSelect = some s ∧
  g.leftEdge = some l ∧ l < n ∧ g.rightEdge = some r ∧ r < n ∧
  m.revolvingMenu = true ∧ g.isMoving = false ∧
  (m.opened = false ∨ m.enabled = true)

/-- The user-facing command alphabet of the single-selection property. -/
inductive Cmd where
  | opn | cls | next | prev | select
deriving DecidableEq, Repr

/-- One command against the menu (selectItem's outcome report dropped). -/
def runCmd (c : Cmd) (s : Globals × Menu) : Option (Globals × Menu) :=
  match c with
  | Cmd.opn => Menu.openMenu s.1 s.2
  | Cmd.cls => Menu.closeMenu s.1 s.2
  | Cmd.next => Menu.moveToNext s.1 s.2
  | Cmd.prev => Menu.moveToPrev s.1 s.2
  | Cmd.select => (Menu.selectItem s.1 s.2).map (fun r => (r.1, r.2.1))

/-- A command sequence, left to right. -/
def runCmds (cs : List Cmd) (s : Globals × Menu) : Option (Globals × Menu) :=
  match cs with
  | [] => some s
  | c :: rest => (runCmd c s).bind (runCmds rest)

/-- Number of heap addresses below `n` holding a selected node. -/
def selCount (g : Globals) (n : Nat) : Nat :=
  ((List.range n).filter
    (fun k => (g.mem k).map (fun nd => nd.selected) == some true)).length

/-! Vector algebra for the layout arithmetic. -/

theorem Vec3.smul_add_one (a : Int) (g : Vec3) :
    Vec3.add (Vec3.smul a g) g = Vec3.smul (a + 1) g := by
  simp only [Vec3.add, Vec3.smul, Vec3.mk.injEq]
  refine ⟨by ring, by ring, by ring⟩

theorem Vec3.neg_add_smul (a b : Int) (g : Vec3) :
    Vec3.neg (Vec3.add (Vec3.smul a g) (Vec3.smul b g)) =
      Vec3.smul (-(a + b)) g := by
  simp only [Vec3.add, Vec3.smul, Vec3.neg, Vec3.mk.injEq]
  refine ⟨by ring, by ring, by ring⟩

theorem Vec3.zero_sub_smul (g : Vec3) :
    Vec3.sub Vec3.zero g = Vec3.smul (-1) g := by
  simp only [Vec3.sub, Vec3.zero, Vec3.smul, Vec3.mk.injEq]
  refine ⟨by ring, by ring, by ring⟩

theorem Vec3.smul_congr (a b : Int) (g : Vec3) (h : a = b) :
    Vec3.smul a g = Vec3.smul b g := by
  rw [h]

/-! Heap update laws. -/

theorem upd_same (mem : Nat → Option MenuNode) (i : Nat) (v : MenuNode) :
    upd mem i v i = some v := by
  simp [upd]

theorem upd_ne (mem : Nat → Option MenuNode) (i j : Nat) (v : MenuNode)
    (h : j ≠ i) : upd mem i v j = mem j := by
  simp [upd, h]

/-! Stepping laws for the layout accumulators. -/

theorem mf_of_decide (n : Nat) :
    (if (decide (n % 2 = 0) : Bool) = true then (0 : Int) else 1) = mfInt n := by
  by_cases h : n % 2 = 0 <;> simp [mfInt, h]

theorem entryLe_step (n : Nat) (le0 : Option Nat) (j : Nat) (hj : j < n) :
    (if (n = 2 ∧ j = 1) ∨ j = n / 2 + 1 then some j else entryLe n le0 j) =
      entryLe n le0 (j + 1) := by
  unfold entryLe
  by_cases h2 : n = 2
  · subst h2
    interval_cases j <;> simp
  · simp only [h2, false_and, false_or, if_false]
    by_cases hj1 : j = n / 2 + 1
    · subst hj1; simp
    · simp only [hj1, if_false]
      split_ifs with h1 h2 <;> first | rfl | omega

theorem entryRe_step (n : Nat) (re0 : Option Nat) (j : Nat) :
    (if j = n / 2 then some j else entryRe n re0 j) = entryRe n re0 (j + 1) := by
  unfold entryRe
  by_cases h : j = n / 2
  · subst h; simp
  · simp only [h, if_false]
    split_ifs with h1 h2 <;> first | rfl | omega

theorem entryPos_add_gap (n : Nat) (g : Vec3) (j : Nat) :
    Vec3.add (entryPos n g j) g = layoutPos n g j := by
  unfold entryPos layoutPos
  rw [Vec3.smul_add_one]
  apply Vec3.smul_congr
  unfold entryCoef layoutCoef
  split_ifs <;> ring

theorem entryPos_step (n : Nat) (g : Vec3) (j : Nat) :
    (if j = n / 2 then
        Vec3.neg (Vec3.add (layoutPos n g j) (Vec3.smul (mfInt n) g))
      else layoutPos n g j) = entryPos n g (j + 1) := by
  by_cases h : j = n / 2
  · subst h
    simp only [if_pos rfl]
    unfold layoutPos entryPos
    rw [Vec3.neg_add_smul]
    apply Vec3.smul_congr
    unfold layoutCoef entryCoef mfInt
    split_ifs <;> omega
  · simp only [h, if_false]
    unfold layoutPos entryPos
    apply Vec3.smul_congr
    unfold layoutCoef entryCoef
    split_ifs <;> omega

/-! Patched-heap laws. -/

theorem repoPatch_zero (n : Nat) (g : Vec3) (mem : Nat → Option MenuNode) :
    repoPatch n g mem 0 = mem := by
  funext k; simp [repoPatch]

theorem repoPatch_succ (n : Nat) (g : Vec3) (mem : Nat → Option MenuNode)
    (j : Nat) (nd : MenuNode) (hnd : mem j = some nd) :
    upd (repoPatch n g mem j) j { nd with pos := layoutPos n g j } =
      repoPatch n g mem (j + 1) := by
  funext k
  by_cases h : k = j
  · subst h; simp [upd, repoPatch, hnd]
  · rw [upd_ne _ _ _ _ h]
    simp only [repoPatch]
    split_ifs with h1 h2 <;> first | rfl | omega

/-- Invariant run of the repositionNodes traversal over a standard n-ring:
starting iteration `j` with the accumulators in their entry states finishes
the walk and delivers the closed-form heap, edges and running position. -/
theorem repoLoop_run (n : Nat) (gap : Vec3) (mem : Nat → Option MenuNode)
    (sel : Nat → Bool) (p0 : Nat → Vec3)
    (hmem : ∀ k, k < n → mem k =
      some { id := k, selected := sel k, next := (k + 1) % n,
             prev := (k + n - 1) % n, pos := p0 k })
    (le0 re0 : Option Nat) :
    ∀ fuel j, j < n → n - j ≤ fuel →
      repoLoop gap n (n / 2) (decide (n % 2 = 0)) 0 fuel
          (repoPatch n gap mem j) (entryLe n le0 j) (entryRe n re0 j)
          (entryPos n gap j) j
        = some (repoPatch n gap mem n, entryLe n le0 n, entryRe n re0 n,
                entryPos n gap n) := by
  intro fuel
  induction fuel with
  | zero => intro j hj hf; omega
  | succ fuel ih =>
    intro j hj hf
    have hmj : repoPatch n gap mem j j =
        some { id := j, selected := sel j, next := (j + 1) % n,
               prev := (j + n - 1) % n, pos := p0 j } := by
      simp [repoPatch, hmem j hj]
    rw [repoLoop, hmj]
    simp only []
    rw [entryPos_add_gap]
    rw [repoPatch_succ n gap mem j _ (hmem j hj)]
    rw [entryLe_step n le0 j hj, mf_of_decide, entryPos_step, entryRe_step]
    by_cases hend : j + 1 = n
    · have h0 : (j + 1) % n = 0 := by rw [hend, Nat.mod_self]
      rw [h0]
      have h0n : (0 : Nat) < n := by omega
      have : repoPatch n gap mem (j + 1) 0 =
          some { id := 0, selected := sel 0, next := (0 + 1) % n,
                 prev := (0 + n - 1) % n, pos := layoutPos n gap 0 } := by
        simp [repoPatch, hmem 0 h0n, hend, h0n]
      rw [this]
      simp [hend]
    · have hjn : j + 1 < n := by omega
      have hmod : (j + 1) % n = j + 1 := Nat.mod_eq_of_lt hjn
      rw [hmod]
      have : repoPatch n gap mem (j + 1) (j + 1) =
          some { id := j + 1, selected := sel (j + 1), next := (j + 1 + 1) % n,
                 prev := (j + 1 + n - 1) % n, pos := p0 (j + 1) } := by
        simp [repoPatch, hmem (j + 1) hjn]
      rw [this]
      have hne : ¬ (j + 1 = 0) := by omega
      simp only [hne, if_false]
      exact ih (j + 1) hjn (by omega)

/-! Entry accumulators at the loop boundary. -/

theorem entryLe_zero (n : Nat) (le0 : Option Nat) : entryLe n le0 0 = le0 := by
  unfold entryLe
  split_ifs <;> first | rfl | omega

theorem entryRe_zero (n : Nat) (re0 : Option Nat) : entryRe n re0 0 = re0 := by
  unfold entryRe
  split_ifs <;> first | rfl | omega

theorem entryPos_zero (n : Nat) (g : Vec3) :
    Vec3.sub Vec3.zero g = entryPos n g 0 := by
  rw [Vec3.zero_sub_smul]
  unfold entryPos
  apply Vec3.smul_congr
  unfold entryCoef
  simp

theorem entryLe_full (n : Nat) : entryLe (n + 1) (leOf n) (n + 1) = leOf (n + 1) := by
  rcases n with _ | _ | m
  · rfl
  · rfl
  · unfold leOf entryLe
    split_ifs <;> first | rfl | omega

theorem entryRe_full (n : Nat) : entryRe (n + 1) (reOf n) (n + 1) = reOf (n + 1) := by
  unfold reOf entryRe
  split_ifs <;> first | rfl | omega

/-! Closed-form state projections and modular link arithmetic. -/

theorem buildMem_lt (n : Nat) (gap : Vec3) (k : Nat) (h : k < n) :
    (buildGlobals n gap).mem k = some (buildNode n gap k) := by
  simp [buildGlobals, h]

theorem buildMem_ge (n : Nat) (gap : Vec3) (k : Nat) (h : n ≤ k) :
    (buildGlobals n gap).mem k = none := by
  simp [buildGlobals]
  omega

theorem stdPrev_eq (N k : Nat) (h1 : 1 ≤ k) (h2 : k < N) :
    (k + N - 1) % N = k - 1 := by
  have h : k + N - 1 = N + (k - 1) := by omega
  rw [h, Nat.add_mod_left]
  exact Nat.mod_eq_of_lt (by omega)

theorem stdPrev_zero (N : Nat) (h : 1 ≤ N) : (0 + N - 1) % N = N - 1 := by
  have h2 : 0 + N - 1 = N - 1 := by omega
  rw [h2]
  exact Nat.mod_eq_of_lt (by omega)

/-- repositionNodes on a standard n-ring (arbitrary prior positions and
selection flags): every position is rewritten to its slot and the edges take
their closed forms; nothing else changes. -/
theorem repositionNodes_std (g : Globals) (m : Menu) (n : Nat)
    (sel : Nat → Bool) (p0 : Nat → Vec3)
    (hn : 1 ≤ n) (hnid : g.nextNodeID = n) (hfirst : g.firstNode = some 0)
    (halloc : n ≤ g.alloc + 1)
    (hmem : ∀ k, k < n → g.mem k =
      some { id := k, selected := sel k, next := (k + 1) % n,
             prev := (k + n - 1) % n, pos := p0 k }) :
    Menu.repositionNodes g m =
      some ({ g with mem := repoPatch n m.gapBetweenItems g.mem n,
                     leftEdge := entryLe n g.leftEdge n,
                     rightEdge := entryRe n g.rightEdge n }, m) := by
  unfold Menu.repositionNodes
  rw [hfirst]
  simp only []
  rw [hmem 0 (by omega)]
  simp only []
  rw [hnid, entryPos_zero n m.gapBetweenItems]
  have h0 := repoLoop_run n m.gapBetweenItems g.mem sel p0 hmem g.leftEdge
    g.rightEdge (g.alloc + 1) 0 (by omega) (by omega)
  rw [repoPatch_zero, entryLe_zero, entryRe_zero] at h0
  rw [h0]

theorem beq_zero_ne (k : Nat) (h : k ≠ 0) : (k == 0) = false := by
  simp [h]

theorem bg_firstNode (n : Nat) (gap : Vec3) (h : ¬ n = 0) :
    (buildGlobals n gap).firstNode = some 0 := by
  simp [buildGlobals, h]

theorem bg_latestNode (n : Nat) (gap : Vec3) (h : ¬ n = 0) :
    (buildGlobals n gap).latestNode = some (n - 1) := by
  simp [buildGlobals, h]

theorem bg_nextNodeID (n : Nat) (gap : Vec3) :
    (buildGlobals n gap).nextNodeID = n := rfl

theorem bg_alloc (n : Nat) (gap : Vec3) : (buildGlobals n gap).alloc = n := rfl

theorem bi_itemTray (n : Nat) (gap : Vec3) :
    (buildInst n gap).itemTray = List.range n := rfl

theorem buildMemX_lt (n : Nat) (gap : Vec3) (k : Nat) (h : k < n) :
    (buildGlobals n gap).mem k = some (buildNode n gap k) := by
  simp [buildGlobals, h]

theorem buildMemX_ge (n : Nat) (gap : Vec3) (k : Nat) (h : n ≤ k) :
    (buildGlobals n gap).mem k = none := by
  simp [buildGlobals]
  omega

theorem add_mod_succ (a b : Nat) (h1 : 1 ≤ a) (h2 : a ≤ b + 1) :
    (a + b) % (b + 1) = a - 1 := by
  have h : a + b = (b + 1) + (a - 1) := by omega
  rw [h, Nat.add_mod_left]
  exact Nat.mod_eq_of_lt (by omega)

theorem repoPatch_final (N : Nat) (gap : Vec3) (mem : Nat → Option MenuNode)
    (p0 : Nat → Vec3)
    (hmem : ∀ k, k < N → mem k =
      some { id := k, selected := k == 0, next := (k + 1) % N,
             prev := (k + N - 1) % N, pos := p0 k })
    (hnone : ∀ k, N ≤ k → mem k = none) :
    repoPatch N gap mem N =
      fun k => if k < N then some (buildNode N gap k) else none := by
  funext k
  by_cases h : k < N
  · simp [repoPatch, h, hmem k h, buildNode]
  · simp [repoPatch, h, hnone k (by omega)]

/-- Final step of an `add` on a standard n-ring freshly extended to n+1
nodes: repositionNodes delivers exactly the built (n+1)-state. -/
theorem reposition_build_step (g : Globals) (m0 : Menu) (n : Nat) (gap : Vec3)
    (p0 : Nat → Vec3)
    (hkey : g.keyPressed = false) (hcl : g.clicked = false)
    (hmov : g.isMoving = false)
    (hle : g.leftEdge = leOf n) (hre : g.rightEdge = reOf n)
    (hfirst : g.firstNode = some 0) (hlat : g.latestNode = some n)
    (hnts : g.nodeToSelect = some 0)
    (hnid : g.nextNodeID = n + 1) (halloc : g.alloc = n + 1)
    (hmem : ∀ k, k < n + 1 → g.mem k =
      some { id := k, selected := k == 0, next := (k + 1) % (n + 1),
             prev := (k + (n + 1) - 1) % (n + 1), pos := p0 k })
    (hnone : ∀ k, n + 1 ≤ k → g.mem k = none)
    (hm : m0 = buildInst (n + 1) gap) :
    Menu.repositionNodes g m0 =
      some (buildGlobals (n + 1) gap, buildInst (n + 1) gap) := by
  subst hm
  rw [repositionNodes_std g _ (n + 1) (fun k => k == 0) p0 (by omega) hnid
    hfirst (by omega) hmem]
  simp only [Option.some.injEq, Prod.mk.injEq, and_true]
  simp only [buildGlobals, Globals.mk.injEq]
  refine ⟨hkey, hcl, hmov, ?_, ?_, ?_, ?_, ?_, hnid, halloc, ?_⟩
  · rw [hle]; exact entryLe_full n
  · rw [hre]; exact entryRe_full n
  · rw [hfirst, if_neg (by omega)]
  · rw [hlat, if_neg (by omega)]
    simp only [Option.some.injEq]
    omega
  · rw [hnts, if_neg (by omega)]
  · exact repoPatch_final (n + 1) gap g.mem p0 hmem hnone

/-- One `add` on the built n-state yields the built (n+1)-state. -/
theorem add_step (n : Nat) (gap : Vec3) :
    Menu.add (buildGlobals n gap) (buildInst n gap) =
      some (buildGlobals (n + 1) gap, buildInst (n + 1) gap) := by
  rcases n with _ | _ | m
  · show Menu.add (buildGlobals 0 gap) (buildInst 0 gap) =
      some (buildGlobals (0 + 1) gap, buildInst (0 + 1) gap)
    unfold Menu.add
    simp [buildGlobals, buildInst, upd, leOf, reOf]
    refine (repositionNodes_std _ _ 1 (fun _ => true) (fun _ => Vec3.zero)
      (by omega) rfl rfl (by omega) ?_).trans ?_
    · intro k hk
      interval_cases k
      rfl
    · simp only [Option.some.injEq, Prod.mk.injEq, Globals.mk.injEq, true_and,
        and_true]
      refine ⟨⟨by decide, by decide, ?_⟩, rfl⟩
      funext k
      by_cases hk : k = 0
      · subst hk
        simp [repoPatch, upd, buildNode]
      · simp [repoPatch, upd, hk]
  · show Menu.add (buildGlobals 1 gap) (buildInst 1 gap) =
      some (buildGlobals (1 + 1) gap, buildInst (1 + 1) gap)
    unfold Menu.add
    simp [buildGlobals, buildInst, upd, leOf, reOf, buildNode]
    refine (repositionNodes_std _ _ 2 (fun k => k == 0)
      (fun k => if k = 0 then layoutPos 1 gap 0 else Vec3.zero)
      (by omega) rfl rfl (Nat.le_succ 2) ?_).trans ?_
    · intro k hk
      interval_cases k
      · simp [upd]
      · simp [upd]
    · simp only [Option.some.injEq, Prod.mk.injEq, Globals.mk.injEq, true_and,
        and_true]
      refine ⟨⟨by decide, by decide, ?_⟩, by simp [List.range_succ]⟩
      funext k
      by_cases hk0 : k = 0
      · subst hk0
        simp [repoPatch, upd, buildNode]
      · by_cases hk1 : k = 1
        · subst hk1
          simp [repoPatch, upd, buildNode]
        · have hk2 : ¬ k < 2 := by omega
          simp [repoPatch, upd, hk0, hk1, hk2]
  · show Menu.add (buildGlobals (m + 2) gap) (buildInst (m + 2) gap) =
      some (buildGlobals (m + 2 + 1) gap, buildInst (m + 2 + 1) gap)
    have hsub : m + 2 - 1 = m + 1 := by omega
    unfold Menu.add
    simp (disch := omega) only [bg_nextNodeID, bg_alloc, bg_firstNode,
      bg_latestNode, upd_same, upd_ne, buildMemX_lt, Nat.add_eq_zero,
      OfNat.ofNat_ne_zero, and_false, if_false, hsub, bi_itemTray,
      List.length_range]
    refine reposition_build_step _ _ (m + 2) gap
      (fun k => if k = m + 2 then Vec3.zero else layoutPos (m + 2) gap k)
      ?_ ?_ ?_ ?_ ?_ ?_ ?_ ?_ ?_ ?_ ?_ ?_ ?_
    · rfl
    · rfl
    · rfl
    · rfl
    · rfl
    · rfl
    · rfl
    · rfl
    · rfl
    · rfl
    · intro k hk
      by_cases h2 : k = m + 2
      · subst h2
        simp (disch := omega) [upd_same, upd_ne, beq_zero_ne, Nat.mod_self,
          stdPrev_eq, hsub, add_mod_succ]
      · by_cases h1 : k = m + 1
        · subst h1
          simp (disch := omega) [upd_same, upd_ne, buildNode, if_neg,
            Nat.mod_eq_of_lt, stdPrev_eq, add_mod_succ]
        · by_cases h0 : k = 0
          · subst h0
            simp (disch := omega) [upd_same, upd_ne, buildNode, if_neg,
              Nat.mod_eq_of_lt, Nat.add_sub_cancel]
          · simp (disch := omega) [upd_same, upd_ne, buildMemX_lt, buildNode,
              if_neg, Nat.mod_eq_of_lt, stdPrev_eq]
            have e1 : k + (m + 1) = (m + 2) + (k - 1) := by omega
            have e2 : k + (m + 2) = (m + 2 + 1) + (k - 1) := by omega
            rw [e1, e2, Nat.add_mod_left, Nat.add_mod_left,
              Nat.mod_eq_of_lt (by omega), Nat.mod_eq_of_lt (by omega)]
    · intro k hk
      simp (disch := omega) only [upd_ne, buildMemX_ge]
    · simp [buildInst, List.range_succ]

/-- Built-state characterization: n adds on a freshly constructed menu with
spacing `gap` produce exactly the closed-form module and instance states. -/
theorem buildMenu_spec (n : Nat) (gap : Vec3) :
    buildMenu n (gapProps gap) = some (buildGlobals n gap, buildInst n gap) := by
  induction n with
  | zero =>
    unfold buildMenu addN
    simp only [Menu.new, Menu.init, gapProps, jsTruthyOr]
    simp only [Option.some.injEq, Prod.mk.injEq]
    constructor
    · simp only [freshGlobals, buildGlobals, Globals.mk.injEq, leOf, reOf,
        entryLe, entryRe]
      norm_num
    · rfl
  | succ k ih =>
    unfold buildMenu at ih
    unfold buildMenu
    rw [addN, ih]
    exact add_step k gap

theorem reOf_eval (n : Nat) (h : 1 ≤ n) : reOf n = some (n / 2) := by
  unfold reOf entryRe
  rw [if_pos (by omega)]

theorem leOf_eval (n : Nat) (h : 2 ≤ n) :
    leOf n = some (if n = 2 then 1 else n / 2 + 1) := by
  unfold leOf entryLe
  split_ifs <;> first | rfl | omega

theorem Vec3.add_sub_cancel (v g : Vec3) :
    Vec3.sub (Vec3.add v g) g = v := by
  cases v with
  | mk a b c =>
    simp only [Vec3.sub, Vec3.add, Vec3.mk.injEq]
    refine ⟨by ring, by ring, by ring⟩

theorem Vec3.sub_add_cancel (v g : Vec3) :
    Vec3.add (Vec3.sub v g) g = v := by
  cases v with
  | mk a b c =>
    simp only [Vec3.sub, Vec3.add, Vec3.mk.injEq]
    refine ⟨by ring, by ring, by ring⟩

theorem beq_ne (a b : Nat) (h : ¬ a = b) : (a == b) = false := by
  simp [h]

theorem nextPatch_succ (n l : Nat) (gap : Vec3) (p : Nat → Vec3)
    (mem : Nat → Option MenuNode) (j : Nat) :
    upd (nextPatch n l gap p mem j) j
        { id := j, selected := false, next := (j + 1) % n,
          prev := (j + n - 1) % n, pos := nextSettled n l gap p j } =
      nextPatch n l gap p mem (j + 1) := by
  funext k
  by_cases h : k = j
  · subst h; simp [upd, nextPatch]
  · rw [upd_ne _ _ _ _ h]
    simp only [nextPatch]
    split_ifs with h1 h2 <;> first | rfl | omega

/-- Invariant run of the moveToNext traversal over a standard n-ring. -/
theorem nextLoop_run (n : Nat) (gap : Vec3) (p : Nat → Vec3) (s l : Nat)
    (mem : Nat → Option MenuNode)
    (hmem : ∀ k, k < n → mem k =
      some { id := k, selected := k == s, next := (k + 1) % n,
             prev := (k + n - 1) % n, pos := p k })
    (hs : s < n) (hl : l < n) (re0 : Option Nat) :
    ∀ fuel j, j < n → n - j ≤ fuel →
      nextLoop gap 0 mem (some l) fuel (nextPatch n l gap p mem j)
          (if l < j then some l else re0)
          (if s < j then some ((s + 1) % n) else some s) j
        = some (nextPatch n l gap p mem n, some l, some ((s + 1) % n)) := by
  intro fuel
  induction fuel with
  | zero => intro j hj hf; omega
  | succ fuel ih =>
    intro j hj hf
    have hmj : nextPatch n l gap p mem j j =
        some { id := j, selected := j == s, next := (j + 1) % n,
               prev := (j + n - 1) % n, pos := p j } := by
      simp [nextPatch, hmem j hj]
    rw [nextLoop, hmj]
    simp only [Option.some.injEq]
    have hprevlt : (j + n - 1) % n < n := Nat.mod_lt _ (by omega)
    have hbody :
        (if j = l then (mem ((j + n - 1) % n)).map
            (fun pnd => Vec3.add pnd.pos gap)
          else some (p j)) =
        some (if j = l then Vec3.add (p ((l + n - 1) % n)) gap else p j) := by
      by_cases hjl : j = l
      · subst hjl
        rw [if_pos rfl, if_pos rfl, hmem _ hprevlt]
        rfl
      · rw [if_neg hjl, if_neg hjl]
    rw [hbody]
    simp only []
    have hsel :
        (if (j == s) = true then
          { id := j, selected := false, next := (j + 1) % n,
            prev := (j + n - 1) % n,
            pos := Vec3.sub (if j = l then Vec3.add (p ((l + n - 1) % n)) gap
              else p j) gap }
        else
          { id := j, selected := j == s, next := (j + 1) % n,
            prev := (j + n - 1) % n,
            pos := Vec3.sub (if j = l then Vec3.add (p ((l + n - 1) % n)) gap
              else p j) gap } : MenuNode) =
        { id := j, selected := false, next := (j + 1) % n,
          prev := (j + n - 1) % n, pos := nextSettled n l gap p j } := by
      have hpos : Vec3.sub (if j = l then Vec3.add (p ((l + n - 1) % n)) gap
          else p j) gap = nextSettled n l gap p j := by
        unfold nextSettled
        by_cases hjl : j = l
        · subst hjl
          rw [if_pos rfl, if_pos rfl, Vec3.add_sub_cancel]
        · rw [if_neg hjl, if_neg hjl]
      rw [hpos]
      by_cases hjs : j = s
      · subst hjs
        rw [if_pos (by simp)]
      · rw [if_neg (by simp [hjs]), beq_ne j s hjs]
    rw [hsel, nextPatch_succ]
    have hre : (if j = l then some j else if l < j then some l else re0) =
        (if l < j + 1 then some l else re0) := by
      by_cases hjl : j = l
      · subst hjl
        rw [if_pos rfl, if_pos (by omega)]
      · rw [if_neg hjl]
        split_ifs <;> first | rfl | omega
    have hnts : (if (j == s) = true then some ((j + 1) % n)
        else if s < j then some ((s + 1) % n) else some s) =
        (if s < j + 1 then some ((s + 1) % n) else some s) := by
      by_cases hjs : j = s
      · subst hjs
        rw [if_pos (by simp), if_pos (by omega)]
      · rw [if_neg (by simp [hjs])]
        split_ifs <;> first | rfl | omega
    rw [hre, hnts]
    by_cases hend : j + 1 = n
    · have h0 : (j + 1) % n = 0 := by rw [hend, Nat.mod_self]
      rw [h0]
      have h0n : (0 : Nat) < n := by omega
      have hpp : nextPatch n l gap p mem (j + 1) 0 =
          some { id := 0, selected := false, next := (0 + 1) % n,
                 prev := (0 + n - 1) % n, pos := nextSettled n l gap p 0 } := by
        simp [nextPatch, hend, h0n]
      rw [hpp]
      simp [hend]
      exact ⟨fun h2 => absurd h2 (by omega), fun h2 => absurd h2 (by omega)⟩
    · have hjn : j + 1 < n := by omega
      have hmod : (j + 1) % n = j + 1 := Nat.mod_eq_of_lt hjn
      rw [hmod]
      have hpp : nextPatch n l gap p mem (j + 1) (j + 1) =
          some { id := j + 1, selected := (j + 1) == s, next := (j + 1 + 1) % n,
                 prev := (j + 1 + n - 1) % n, pos := p (j + 1) } := by
        simp [nextPatch, hmem (j + 1) hjn]
      rw [hpp]
      have hne : ¬ (j + 1 = 0) := by omega
      simp only [hne, if_false]
      exact ih (j + 1) hjn (by omega)

theorem nextPatch_zero (n l : Nat) (gap : Vec3) (p : Nat → Vec3)
    (mem : Nat → Option MenuNode) : nextPatch n l gap p mem 0 = mem := by
  funext k
  simp [nextPatch]

/-- Characterization of a completed moveToNext on a good state: the selection
advances to its `next`, rightEdge becomes the old leftEdge, leftEdge moves to
the old leftEdge's successor, the teleported node nets its predecessor's old
position and every other node translates by `-gap`. -/
theorem moveToNext_spec (g : Globals) (m : Menu) (n s l r : Nat)
    (p : Nat → Vec3) (hgs : GoodState g m n s l r p) :
    ∃ g', Menu.moveToNext g m =
        some (g', { m with itemSelected := (s + 1) % n }) ∧
      GoodState g' { m with itemSelected := (s + 1) % n } n ((s + 1) % n)
        ((l + 1) % n) l (nextSettled n l m.gapBetweenItems p) ∧
      g'.keyPressed = g.keyPressed ∧ g'.clicked = g.clicked ∧
      g'.latestNode = g.latestNode ∧ (∀ k, n ≤ k → g'.mem k = g.mem k) := by
  obtain ⟨hn, halloc, hnid, hfirst, hmem, hs, hnts, hle, hl, hre, hr, hop,
    hen, hrev, hmov⟩ := hgs
  have hs1 : (s + 1) % n < n := Nat.mod_lt _ (by omega)
  have hl1 : (l + 1) % n < n := Nat.mod_lt _ (by omega)
  unfold Menu.moveToNext
  rw [if_neg (by rw [hop, hmov, hrev, hnid]; simp; omega)]
  rw [hfirst]
  simp only []
  rw [hmem 0 (by omega)]
  simp only [hle, hre, hnts, halloc]
  have hrun := nextLoop_run n m.gapBetweenItems p s l g.mem hmem hs hl (some r)
    (n + 1) 0 (by omega) (by omega)
  rw [nextPatch_zero] at hrun
  simp only [Nat.not_lt_zero, if_false] at hrun
  rw [hrun]
  simp only []
  have hml : nextPatch n l m.gapBetweenItems p g.mem n l =
      some { id := l, selected := false, next := (l + 1) % n,
             prev := (l + n - 1) % n,
             pos := nextSettled n l m.gapBetweenItems p l } := by
    simp [nextPatch, hl]
  rw [hml]
  simp only []
  have hms : nextPatch n l m.gapBetweenItems p g.mem n ((s + 1) % n) =
      some { id := (s + 1) % n, selected := false, next := ((s + 1) % n + 1) % n,
             prev := ((s + 1) % n + n - 1) % n,
             pos := nextSettled n l m.gapBetweenItems p ((s + 1) % n) } := by
    simp [nextPatch, hs1]
  rw [hms]
  simp only []
  refine ⟨_, rfl, ?_, rfl, rfl, rfl, ?_⟩
  · refine ⟨hn, rfl, hnid, rfl, ?_, hs1, rfl, rfl, hl1, rfl, hl,
      hop, hen, hrev, rfl⟩
    intro k hk
    simp only []
    by_cases hks : k = (s + 1) % n
    · subst hks
      rw [upd_same]
      have : ((s + 1) % n == (s + 1) % n) = true := by simp
      rw [this]
    · rw [upd_ne _ _ _ _ hks]
      have hpk : nextPatch n l m.gapBetweenItems p g.mem n k =
          some { id := k, selected := false, next := (k + 1) % n,
                 prev := (k + n - 1) % n,
                 pos := nextSettled n l m.gapBetweenItems p k } := by
        simp [nextPatch, hk]
      rw [hpk, beq_ne k _ hks]
  · intro k hk
    simp only []
    rw [upd_ne _ _ _ _ (by omega)]
    have hnk : ¬ k < n := by omega
    simp [nextPatch, hnk]

theorem prevPatch_step (n r : Nat) (gap : Vec3) (p : Nat → Vec3)
    (mem : Nat → Option MenuNode) (j : Nat) (h1 : 1 ≤ j) (hjn : j < n) :
    upd (prevPatch n r gap p mem j) j
        { id := j, selected := false, next := (j + 1) % n,
          prev := (j + n - 1) % n, pos := prevSettled n r gap p j } =
      prevPatch n r gap p mem (j - 1) := by
  funext k
  by_cases h : k = j
  · subst h
    rw [upd_same]
    simp only [prevPatch]
    rw [if_pos (by omega)]
  · rw [upd_ne _ _ _ _ h]
    simp only [prevPatch]
    split_ifs with h2 h3 <;> first | rfl | omega

/-- Invariant run of the descending phase of the moveToPrev traversal. -/
theorem prevLoop_run (n : Nat) (gap : Vec3) (p : Nat → Vec3) (s r : Nat)
    (mem : Nat → Option MenuNode)
    (hmem : ∀ k, k < n → mem k =
      some { id := k, selected := k == s, next := (k + 1) % n,
             prev := (k + n - 1) % n, pos := p k })
    (hs : s < n) (hr : r < n) (le0 : Option Nat) :
    ∀ fuel j, 1 ≤ j → j < n → j ≤ fuel →
      prevLoop gap 0 mem (some r) fuel (prevPatch n r gap p mem j)
          (if r = 0 ∨ j < r then some r else le0)
          (if s = 0 ∨ j < s then some ((s + n - 1) % n) else some s) j
        = some (prevPatch n r gap p mem 0, some r, some ((s + n - 1) % n)) := by
  intro fuel
  induction fuel with
  | zero => intro j h1 hj hf; omega
  | succ fuel ih =>
    intro j h1 hj hf
    have hmj : prevPatch n r gap p mem j j =
        some { id := j, selected := j == s, next := (j + 1) % n,
               prev := (j + n - 1) % n, pos := p j } := by
      simp only [prevPatch]
      rw [if_neg (by omega), hmem j hj]
    rw [prevLoop, hmj]
    simp only [Option.some.injEq]
    have hnextlt : (j + 1) % n < n := Nat.mod_lt _ (by omega)
    have hbody :
        (if j = r then (mem ((j + 1) % n)).map
            (fun pnd => Vec3.sub pnd.pos gap)
          else some (p j)) =
        some (if j = r then Vec3.sub (p ((r + 1) % n)) gap else p j) := by
      by_cases hjr : j = r
      · subst hjr
        rw [if_pos rfl, if_pos rfl, hmem _ hnextlt]
        rfl
      · rw [if_neg hjr, if_neg hjr]
    rw [hbody]
    simp only []
    have hsel :
        (if (j == s) = true then
          { id := j, selected := false, next := (j + 1) % n,
            prev := (j + n - 1) % n,
            pos := Vec3.add (if j = r then Vec3.sub (p ((r + 1) % n)) gap
              else p j) gap }
        else
          { id := j, selected := j == s, next := (j + 1) % n,
            prev := (j + n - 1) % n,
            pos := Vec3.add (if j = r then Vec3.sub (p ((r + 1) % n)) gap
              else p j) gap } : MenuNode) =
        { id := j, selected := false, next := (j + 1) % n,
          prev := (j + n - 1) % n, pos := prevSettled n r gap p j } := by
      have hpos : Vec3.add (if j = r then Vec3.sub (p ((r + 1) % n)) gap
          else p j) gap = prevSettled n r gap p j := by
        unfold prevSettled
        by_cases hjr : j = r
        · subst hjr
          rw [if_pos rfl, if_pos rfl, Vec3.sub_add_cancel]
        · rw [if_neg hjr, if_neg hjr]
      rw [hpos]
      by_cases hjs : j = s
      · subst hjs
        rw [if_pos (by simp)]
      · rw [if_neg (by simp [hjs]), beq_ne j s hjs]
    rw [hsel, prevPatch_step n r gap p mem j h1 hj]
    have hle : (if j = r then some j else if r = 0 ∨ j < r then some r else le0) =
        (if r = 0 ∨ j - 1 < r then some r else le0) := by
      by_cases hjr : j = r
      · subst hjr
        rw [if_pos rfl, if_pos (by omega)]
      · rw [if_neg hjr]
        split_ifs <;> first | rfl | omega
    have hnts : (if (j == s) = true then some ((j + n - 1) % n)
        else if s = 0 ∨ j < s then some ((s + n - 1) % n) else some s) =
        (if s = 0 ∨ j - 1 < s then some ((s + n - 1) % n) else some s) := by
      by_cases hjs : j = s
      · subst hjs
        rw [if_pos (by simp), if_pos (by omega)]
      · rw [if_neg (by simp [hjs])]
        split_ifs <;> first | rfl | omega
    rw [hle, hnts]
    have hprev : (j + n - 1) % n = j - 1 := stdPrev_eq n j h1 hj
    rw [hprev]
    by_cases hone : j = 1
    · subst hone
      simp only [Nat.sub_self]
      have hpp : prevPatch n r gap p mem 0 0 =
          some { id := 0, selected := false, next := (0 + 1) % n,
                 prev := (0 + n - 1) % n, pos := prevSettled n r gap p 0 } := by
        simp only [prevPatch]
        split_ifs with hc
        · rfl
        · exact absurd (Or.inl trivial) hc
      rw [hpp]
      simp
    · have h2 : 2 ≤ j := by omega
      have hpp : prevPatch n r gap p mem (j - 1) (j - 1) =
          some { id := j - 1, selected := (j - 1) == s, next := (j - 1 + 1) % n,
                 prev := (j - 1 + n - 1) % n, pos := p (j - 1) } := by
        simp only [prevPatch]
        rw [if_neg (by omega), hmem (j - 1) (by omega)]
      rw [hpp]
      have hne : ¬ (j - 1 = 0) := by omega
      simp only [hne, if_false]
      exact ih (j - 1) (by omega) (by omega) (by omega)

theorem prevPatch_first (n r : Nat) (gap : Vec3) (p : Nat → Vec3)
    (mem : Nat → Option MenuNode) (hn : 2 ≤ n) :
    upd mem 0 { id := 0, selected := false, next := (0 + 1) % n,
                prev := (0 + n - 1) % n, pos := prevSettled n r gap p 0 } =
      prevPatch n r gap p mem (n - 1) := by
  funext k
  by_cases h : k = 0
  · subst h
    rw [upd_same]
    simp only [prevPatch]
    split_ifs with hc
    · rfl
    · exact absurd (Or.inl trivial) hc
  · rw [upd_ne _ _ _ _ h]
    simp only [prevPatch]
    split_ifs with hc
    · exact absurd hc (by omega)
    · rfl

/-- Characterization of a completed moveToPrev on a good state: the selection
retreats to its `prev`, leftEdge becomes the old rightEdge, rightEdge moves to
the old rightEdge's predecessor, the teleported node nets its successor's old
position and every other node translates by `+gap`. -/
theorem moveToPrev_spec (g : Globals) (m : Menu) (n s l r : Nat)
    (p : Nat → Vec3) (hgs : GoodState g m n s l r p) :
    ∃ g', Menu.moveToPrev g m =
        some (g', { m with itemSelected := (s + n - 1) % n }) ∧
      GoodState g' { m with itemSelected := (s + n - 1) % n } n
        ((s + n - 1) % n) r ((r + n - 1) % n)
        (prevSettled n r m.gapBetweenItems p) ∧
      g'.keyPressed = g.keyPressed ∧ g'.clicked = g.clicked ∧
      g'.latestNode = g.latestNode ∧ (∀ k, n ≤ k → g'.mem k = g.mem k) := by
  obtain ⟨hn, halloc, hnid, hfirst, hmem, hs, hnts, hle, hl, hre, hr, hop,
    hen, hrev, hmov⟩ := hgs
  have hs2 : (s + n - 1) % n < n := Nat.mod_lt _ (by omega)
  have hr2 : (r + n - 1) % n < n := Nat.mod_lt _ (by omega)
  have hrlt : r < n := hr
  unfold Menu.moveToPrev
  rw [if_neg (by rw [hop, hmov, hrev, hnid]; simp; omega)]
  rw [hfirst]
  simp only []
  rw [hmem 0 (by omega)]
  simp only [hle, hre, hnts, halloc]
  rw [prevLoop]
  rw [hmem 0 (by omega)]
  simp only [Option.some.injEq]
  have hnextlt : (0 + 1) % n < n := Nat.mod_lt _ (by omega)
  have hb0 : (if 0 = r then (g.mem ((0 + 1) % n)).map
        (fun pnd => Vec3.sub pnd.pos m.gapBetweenItems)
      else some (p 0)) =
      some (if 0 = r then Vec3.sub (p ((r + 1) % n)) m.gapBetweenItems
        else p 0) := by
    by_cases h0r : 0 = r
    · rw [if_pos h0r, if_pos h0r, ← h0r]
      rw [hmem _ hnextlt]
      rfl
    · rw [if_neg h0r, if_neg h0r]
  rw [hb0]
  simp only []
  have hsel0 :
      (if ((0 : Nat) == s) = true then
        { id := 0, selected := false, next := (0 + 1) % n,
          prev := (0 + n - 1) % n,
          pos := Vec3.add (if 0 = r then Vec3.sub (p ((r + 1) % n))
            m.gapBetweenItems else p 0) m.gapBetweenItems }
      else
        { id := 0, selected := (0 : Nat) == s, next := (0 + 1) % n,
          prev := (0 + n - 1) % n,
          pos := Vec3.add (if 0 = r then Vec3.sub (p ((r + 1) % n))
            m.gapBetweenItems else p 0) m.gapBetweenItems } : MenuNode) =
      { id := 0, selected := false, next := (0 + 1) % n,
        prev := (0 + n - 1) % n,
        pos := prevSettled n r m.gapBetweenItems p 0 } := by
    have hpos : Vec3.add (if 0 = r then Vec3.sub (p ((r + 1) % n))
        m.gapBetweenItems else p 0) m.gapBetweenItems =
        prevSettled n r m.gapBetweenItems p 0 := by
      unfold prevSettled
      by_cases h0r : 0 = r
      · rw [if_pos h0r, if_pos h0r, Vec3.sub_add_cancel]
      · rw [if_neg h0r, if_neg h0r]
    rw [hpos]
    by_cases h0s : 0 = s
    · rw [if_pos (by simp [h0s.symm])]
    · rw [if_neg (by simp [beq_ne 0 s h0s]), beq_ne 0 s h0s]
  rw [hsel0, prevPatch_first n r m.gapBetweenItems p g.mem hn]
  have hprev0 : ((0 : Nat) + n - 1) % n = n - 1 := stdPrev_zero n (by omega)
  rw [hprev0]
  have hmn1 : prevPatch n r m.gapBetweenItems p g.mem (n - 1) (n - 1) =
      some { id := n - 1, selected := (n - 1) == s, next := (n - 1 + 1) % n,
             prev := (n - 1 + n - 1) % n, pos := p (n - 1) } := by
    simp only [prevPatch]
    rw [if_neg (by omega), hmem (n - 1) (by omega)]
  rw [hmn1]
  have hne : ¬ (n - 1 = 0) := by omega
  simp only [hne, if_false]
  have heqle : (if 0 = r then some (0 : Nat) else some l) =
      (if r = 0 ∨ n - 1 < r then some r else some l) := by
    by_cases h0r : 0 = r
    · rw [if_pos h0r, if_pos (Or.inl h0r.symm), h0r]
    · rw [if_neg h0r, if_neg (by omega)]
  have heqnts : (if ((0 : Nat) == s) = true then some (n - 1) else some s) =
      (if s = 0 ∨ n - 1 < s then some ((s + n - 1) % n) else some s) := by
    by_cases h0s : 0 = s
    · rw [if_pos (by simp [h0s.symm]), if_pos (Or.inl h0s.symm), ← h0s, hprev0]
    · rw [if_neg (by simp [beq_ne 0 s h0s]), if_neg (by omega)]
  rw [heqle, heqnts]
  have hrun := prevLoop_run n m.gapBetweenItems p s r g.mem hmem hs hr
    (some l) n (n - 1) (by omega) (by omega) (by omega)
  rw [hrun]
  simp only []
  have hpr : prevPatch n r m.gapBetweenItems p g.mem 0 r =
      some { id := r, selected := false, next := (r + 1) % n,
             prev := (r + n - 1) % n,
             pos := prevSettled n r m.gapBetweenItems p r } := by
    simp only [prevPatch]
    split_ifs with hc
    · rfl
    · exact absurd (by omega) hc
  rw [hpr]
  simp only []
  have hps : prevPatch n r m.gapBetweenItems p g.mem 0 ((s + n - 1) % n) =
      some { id := (s + n - 1) % n, selected := false,
             next := ((s + n - 1) % n + 1) % n,
             prev := ((s + n - 1) % n + n - 1) % n,
             pos := prevSettled n r m.gapBetweenItems p ((s + n - 1) % n) } := by
    simp only [prevPatch]
    split_ifs with hc
    · rfl
    · exact absurd (by omega) hc
  rw [hps]
  simp only []
  refine ⟨_, rfl, ?_, rfl, rfl, rfl, ?_⟩
  · refine ⟨hn, rfl, hnid, rfl, ?_, hs2, rfl, rfl, hr, rfl, hr2,
      hop, hen, hrev, rfl⟩
    intro k hk
    simp only []
    by_cases hks : k = (s + n - 1) % n
    · subst hks
      rw [upd_same]
      have hbq : (((s + n - 1) % n) == ((s + n - 1) % n)) = true := by simp
      rw [hbq]
    · rw [upd_ne _ _ _ _ hks]
      have hpk : prevPatch n r m.gapBetweenItems p g.mem 0 k =
          some { id := k, selected := false, next := (k + 1) % n,
                 prev := (k + n - 1) % n,
                 pos := prevSettled n r m.gapBetweenItems p k } := by
        simp only [prevPatch]
        split_ifs with hc
        · rfl
        · exact absurd (by omega) hc
      rw [hpk, beq_ne k _ hks]
  · intro k hk
    simp only []
    rw [upd_ne _ _ _ _ (by omega)]
    simp only [prevPatch]
    split_ifs with hc
    · exact absurd hc (by omega)
    · rfl

/-- Stepping forward then back around the ring is the identity on indices
below `n`. -/
theorem mod_prev_succ (n l : Nat) (hn : 1 ≤ n) (hl : l < n) :
    ((l + 1) % n + n - 1) % n = l := by
  by_cases h : l + 1 = n
  · rw [h, Nat.mod_self, stdPrev_zero n hn]
    omega
  · rw [Nat.mod_eq_of_lt (show l + 1 < n by omega),
      stdPrev_eq n (l + 1) (by omega) (by omega)]
    omega

theorem filter_beq_range (n s : Nat) (h : s < n) :
    ((List.range n).filter (fun k => k == s)).length = 1 := by
  induction n with
  | zero => omega
  | succ j ih =>
    rw [List.range_succ, List.filter_append, List.length_append]
    by_cases hs : s = j
    · subst hs
      have h0 : (List.range s).filter (fun k => k == s) = [] := by
        rw [List.filter_eq_nil_iff]
        intro a ha
        simp only [List.mem_range] at ha
        simp only [beq_iff_eq]
        omega
      rw [h0]
      simp
    · rw [ih (by omega)]
      have hb : (j == s) = false := by
        simp only [beq_eq_false_iff_ne, ne_eq]
        omega
      simp [List.filter_cons, hb]

/-- On a heap whose selected flags are `k == s` below `n`, exactly one
address holds a selected node. -/
theorem selCount_eq_one (g : Globals) (n s : Nat) (hs : s < n)
    (hmem : ∀ k, k < n →
      (g.mem k).map (fun nd => nd.selected) = some (k == s)) :
    selCount g n = 1 := by
  unfold selCount
  have hc : ∀ k ∈ List.range n,
      ((g.mem k).map (fun nd => nd.selected) == some true) = (k == s) := by
    intro k hk
    rw [hmem k (List.mem_range.mp hk)]
    cases hb : (k == s) <;> simp [hb]
  rw [List.filter_congr hc]
  exact filter_beq_range n s hs

/-- Every command sends a `RingState` to a `RingState` (with possibly new
selection, edges and positions), and never crashes. -/
theorem runCmd_preserve (c : Cmd) (g : Globals) (m : Menu) (n s l r : Nat)
    (p : Nat → Vec3) (h : RingState g m n s l r p) :
    ∃ g' m' s' l' r' p', runCmd c (g, m) = some (g', m') ∧
      RingState g' m' n s' l' r' p' := by
  obtain ⟨hn, halloc, hnid, hfirst, hmem, hs, hnts, hle, hl, hre, hr, hrev,
    hmov, hoe⟩ := h
  cases c with
  | opn =>
    show ∃ g' m' s' l' r' p', Menu.openMenu g m = some (g', m') ∧
      RingState g' m' n s' l' r' p'
    unfold Menu.openMenu
    by_cases hop : m.opened = true
    · rw [if_pos hop]
      exact ⟨g, m, s, l, r, p, rfl, hn, halloc, hnid, hfirst, hmem, hs, hnts,
        hle, hl, hre, hr, hrev, hmov, hoe⟩
    · rw [if_neg hop]
      by_cases hb : m.openBehavior = 1 ∨ m.openBehavior = 2
      · rw [if_pos hb, hfirst]
        simp only []
        rw [hmem 0 (by omega)]
        exact ⟨g, _, s, l, r, p, rfl, hn, halloc, hnid, hfirst, hmem, hs,
          hnts, hle, hl, hre, hr, hrev, hmov, Or.inr rfl⟩
      · rw [if_neg hb]
        exact ⟨g, _, s, l, r, p, rfl, hn, halloc, hnid, hfirst, hmem, hs,
          hnts, hle, hl, hre, hr, hrev, hmov, Or.inr rfl⟩
  | cls =>
    show ∃ g' m' s' l' r' p', Menu.closeMenu g m = some (g', m') ∧
      RingState g' m' n s' l' r' p'
    unfold Menu.closeMenu
    by_cases hop : m.opened = false
    · rw [if_pos hop]
      exact ⟨g, m, s, l, r, p, rfl, hn, halloc, hnid, hfirst, hmem, hs, hnts,
        hle, hl, hre, hr, hrev, hmov, hoe⟩
    · rw [if_neg hop, hfirst]
      simp only []
      rw [hmem 0 (by omega)]
      exact ⟨g, _, s, l, r, p, rfl, hn, halloc, hnid, hfirst, hmem, hs, hnts,
        hle, hl, hre, hr, hrev, hmov, Or.inl rfl⟩
  | next =>
    show ∃ g' m' s' l' r' p', Menu.moveToNext g m = some (g', m') ∧
      RingState g' m' n s' l' r' p'
    by_cases hop : m.opened = true
    · have hen : m.enabled = true := hoe.resolve_left (by simp [hop])
      obtain ⟨g', heq, hgs', _⟩ := moveToNext_spec g m n s l r p
        ⟨hn, halloc, hnid, hfirst, hmem, hs, hnts, hle, hl, hre, hr, hop,
          hen, hrev, hmov⟩
      obtain ⟨hn', halloc', hnid', hfirst', hmem', hs', hnts', hle', hl',
        hre', hr', hop', hen', hrev', hmov'⟩ := hgs'
      exact ⟨g', _, (s + 1) % n, (l + 1) % n, l,
        nextSettled n l m.gapBetweenItems p, heq, hn', halloc', hnid',
        hfirst', hmem', hs', hnts', hle', hl', hre', hr', hrev', hmov',
        Or.inr hen'⟩
    · have hop' : m.opened = false := by
        revert hop
        cases m.opened <;> simp
      unfold Menu.moveToNext
      rw [if_pos (Or.inl hop')]
      exact ⟨{ g with keyPressed := false }, m, s, l, r, p, rfl, hn, halloc,
        hnid, hfirst, hmem, hs, hnts, hle, hl, hre, hr, hrev, hmov, hoe⟩
  | prev =>
    show ∃ g' m' s' l' r' p', Menu.moveToPrev g m = some (g', m') ∧
      RingState g' m' n s' l' r' p'
    by_cases hop : m.opened = true
    · have hen : m.enabled = true := hoe.resolve_left (by simp [hop])
      obtain ⟨g', heq, hgs', _⟩ := moveToPrev_spec g m n s l r p
        ⟨hn, halloc, hnid, hfirst, hmem, hs, hnts, hle, hl, hre, hr, hop,
          hen, hrev, hmov⟩
      obtain ⟨hn', halloc', hnid', hfirst', hmem', hs', hnts', hle', hl',
        hre', hr', hop', hen', hrev', hmov'⟩ := hgs'
      exact ⟨g', _, (s + n - 1) % n, r, (r + n - 1) % n,
        prevSettled n r m.gapBetweenItems p, heq, hn', halloc', hnid',
        hfirst', hmem', hs', hnts', hle', hl', hre', hr', hrev', hmov',
        Or.inr hen'⟩
    · have hop' : m.opened = false := by
        revert hop
        cases m.opened <;> simp
      unfold Menu.moveToPrev
      rw [if_pos (Or.inl hop')]
      exact ⟨{ g with keyPressed := false }, m, s, l, r, p, rfl, hn, halloc,
        hnid, hfirst, hmem, hs, hnts, hle, hl, hre, hr, hrev, hmov, hoe⟩
  | select =>
    show ∃ g' m' s' l' r' p',
      (Menu.selectItem g m).map (fun u => (u.1, u.2.1)) = some (g', m') ∧
      RingState g' m' n s' l' r' p'
    unfold Menu.selectItem
    by_cases hg : m.opened = false ∨ m.enabled = false
    · rw [if_pos hg]
      exact ⟨{ g with keyPressed := false }, m, s, l, r, p, rfl, hn, halloc,
        hnid, hfirst, hmem, hs, hnts, hle, hl, hre, hr, hrev, hmov, hoe⟩
    · rw [if_neg hg, hnts]
      simp only []
      rw [hmem s hs]
      exact ⟨g, m, s, l, r, p, rfl, hn, halloc, hnid, hfirst, hmem, hs, hnts,
        hle, hl, hre, hr, hrev, hmov, hoe⟩

/-- A whole command sequence sends a `RingState` to a `RingState` without
crashing. -/
theorem runCmds_preserve (cs : List Cmd) (g : Globals) (m : Menu)
    (n : Nat) (s l r : Nat) (p : Nat → Vec3) (h : RingState g m n s l r p) :
    ∃ g' m' s' l' r' p', runCmds cs (g, m) = some (g', m') ∧
      RingState g' m' n s' l' r' p' := by
  induction cs generalizing g m s l r p with
  | nil => exact ⟨g, m, s, l, r, p, rfl, h⟩
  | cons c rest ih =>
    obtain ⟨g1, m1, s1, l1, r1, p1, heq1, h1⟩ :=
      runCmd_preserve c g m n s l r p h
    obtain ⟨g2, m2, s2, l2, r2, p2, heq2, h2⟩ := ih g1 m1 s1 l1 r1 p1 h1
    refine ⟨g2, m2, s2, l2, r2, p2, ?_, h2⟩
    show (runCmd c (g, m)).bind (runCmds rest) = some (g2, m2)
    rw [heq1]
    exact heq2

/-- Ring distance `(x + n - c) % n` in closed form for indices below `n`. -/
theorem mod_dist (n x c : Nat) (hx : x < n) (hc : c < n) :
    (x + n - c) % n = if c ≤ x then x - c else x + n - c := by
  split_ifs with h
  · have e : x + n - c = (x - c) + n := by omega
    rw [e, Nat.add_mod_right, Nat.mod_eq_of_lt (by omega)]
  · exact Nat.mod_eq_of_lt (by omega)

/-- Disjunctive form of `mod_dist`, digestible by omega. -/
theorem mod_dist_or (n x c : Nat) (hx : x < n) (hc : c < n) :
    (c ≤ x ∧ (x + n - c) % n = x - c) ∨
    (x < c ∧ (x + n - c) % n = x + n - c) := by
  rcases le_or_lt c x with h | h
  · exact Or.inl ⟨h, by rw [mod_dist n x c hx hc, if_pos h]⟩
  · exact Or.inr ⟨h, by rw [mod_dist n x c hx hc, if_neg (by omega)]⟩

/-- Disjunctive form of the successor step around the ring. -/
theorem succ_mod_or (n c : Nat) (hc : c < n) :
    (c + 1 = n ∧ (c + 1) % n = 0) ∨ (c + 1 < n ∧ (c + 1) % n = c + 1) := by
  by_cases h : c + 1 = n
  · exact Or.inl ⟨h, by rw [h, Nat.mod_self]⟩
  · exact Or.inr ⟨by omega, Nat.mod_eq_of_lt (by omega)⟩

/-- Disjunctive form of the predecessor step around the ring. -/
theorem pred_mod_or (n c : Nat) (hc : c < n) (hn : 1 ≤ n) :
    (c = 0 ∧ (c + n - 1) % n = n - 1) ∨
    (1 ≤ c ∧ (c + n - 1) % n = c - 1) := by
  by_cases h : c = 0
  · refine Or.inl ⟨h, ?_⟩
    rw [h, stdPrev_zero n hn]
  · exact Or.inr ⟨by omega, stdPrev_eq n c (by omega) hc⟩

/-- Stepping the walker forward decreases the forward distance to any other
index by one. -/
theorem dist_succ (n x c : Nat) (hx : x < n) (hc : c < n) (hne : x ≠ c) :
    (x + n - (c + 1) % n) % n = (x + n - c) % n - 1 := by
  rcases succ_mod_or n c hc with ⟨h1, h2⟩ | ⟨h1, h2⟩ <;> rw [h2]
  · rw [Nat.sub_zero, Nat.add_mod_right, Nat.mod_eq_of_lt hx]
    rcases mod_dist_or n x c hx hc with ⟨a, b⟩ | ⟨a, b⟩ <;> omega
  · rcases mod_dist_or n x (c + 1) hx (by omega) with ⟨a, b⟩ | ⟨a, b⟩ <;>
      rcases mod_dist_or n x c hx hc with ⟨d, e⟩ | ⟨d, e⟩ <;> omega

/-- Stepping the walker backward decreases the backward distance to any
other index by one. -/
theorem dist_pred (n x c : Nat) (hx : x < n) (hc : c < n) (hne : x ≠ c) :
    ((c + n - 1) % n + n - x) % n = (c + n - x) % n - 1 := by
  rcases pred_mod_or n c hc (by omega) with ⟨h1, h2⟩ | ⟨h1, h2⟩ <;> rw [h2]
  · rcases mod_dist_or n (n - 1) x (by omega) hx with ⟨a, b⟩ | ⟨a, b⟩ <;>
      rcases mod_dist_or n c x hc hx with ⟨d, e⟩ | ⟨d, e⟩ <;> omega
  · rcases mod_dist_or n (c - 1) x (by omega) hx with ⟨a, b⟩ | ⟨a, b⟩ <;>
      rcases mod_dist_or n c x hc hx with ⟨d, e⟩ | ⟨d, e⟩ <;> omega

/-- The forward `traversalCheck` walk over a standard ring answers exactly
whether the target lies on the forward arc from the walker to the end node
(distances measured forward). -/
theorem tcLoop_fwd_run (n : Nat) (mem : Nat → Option MenuNode)
    (hmem : ∀ k, k < n → ∃ nd, mem k = some nd ∧ nd.id = k ∧
      nd.next = (k + 1) % n ∧ nd.prev = (k + n - 1) % n)
    (e tag : Nat) (he : e < n) (ht : tag < n) :
    ∀ (fuel : Nat) (cur : Nat), cur < n → (e + n - cur) % n < fuel →
      tcLoop mem e tag false fuel cur =
        some (decide ((tag + n - cur) % n ≤ (e + n - cur) % n)) := by
  intro fuel
  induction fuel with
  | zero => intro cur hcur hlt; omega
  | succ f ih =>
    intro cur hcur hlt
    obtain ⟨nd, hnd, hid, hnext, hprev⟩ := hmem cur hcur
    have hself : (cur + n - cur) % n = 0 := by
      have e3 : cur + n - cur = n := by omega
      rw [e3, Nat.mod_self]
    simp only [tcLoop]
    rw [hnd]
    simp only [hid, hnext, Bool.false_eq_true, if_false]
    by_cases hce : cur = e
    · have h0 : (e + n - cur) % n = 0 := by
        rw [← hce]
        exact hself
      by_cases htc : cur = tag
      · have hp : (tag + n - cur) % n ≤ (e + n - cur) % n := by
          have e2 : (tag + n - cur) % n = 0 := by
            rw [← htc]
            exact hself
          omega
        rw [if_neg (not_not_intro hce), if_pos htc, decide_eq_true hp]
      · have hp : ¬(tag + n - cur) % n ≤ (e + n - cur) % n := by
          rcases mod_dist_or n tag cur ht hcur with ⟨a, b⟩ | ⟨a, b⟩ <;> omega
        rw [if_neg (not_not_intro hce), if_neg htc, decide_eq_false hp]
    · by_cases htc : cur = tag
      · have hp : (tag + n - cur) % n ≤ (e + n - cur) % n := by
          have e2 : (tag + n - cur) % n = 0 := by
            rw [← htc]
            exact hself
          omega
        rw [if_pos hce, if_pos htc, decide_eq_true hp]
      · have hde : (e + n - (cur + 1) % n) % n = (e + n - cur) % n - 1 :=
          dist_succ n e cur he hcur (fun h => hce h.symm)
        have hdt : (tag + n - (cur + 1) % n) % n = (tag + n - cur) % n - 1 :=
          dist_succ n tag cur ht hcur (fun h => htc h.symm)
        have hpe : 1 ≤ (e + n - cur) % n := by
          rcases mod_dist_or n e cur he hcur with ⟨a2, b2⟩ | ⟨a2, b2⟩ <;> omega
        rw [if_pos hce, if_neg htc,
          ih ((cur + 1) % n) (Nat.mod_lt _ (by omega)) (by omega)]
        have hiff : ((tag + n - (cur + 1) % n) % n ≤
              (e + n - (cur + 1) % n) % n) ↔
            ((tag + n - cur) % n ≤ (e + n - cur) % n) := by
          rcases mod_dist_or n tag cur ht hcur with ⟨a, b⟩ | ⟨a, b⟩ <;>
            rcases mod_dist_or n e cur he hcur with ⟨c2, d2⟩ | ⟨c2, d2⟩ <;>
              (constructor <;> intro <;> omega)
        rw [decide_eq_decide.mpr hiff]

/-- The backward `traversalCheck` walk over a standard ring answers exactly
whether the target lies on the backward arc from the walker to the end node
(distances measured backward). -/
theorem tcLoop_bwd_run (n : Nat) (mem : Nat → Option MenuNode)
    (hmem : ∀ k, k < n → ∃ nd, mem k = some nd ∧ nd.id = k ∧
      nd.next = (k + 1) % n ∧ nd.prev = (k + n - 1) % n)
    (e tag : Nat) (he : e < n) (ht : tag < n) :
    ∀ (fuel : Nat) (cur : Nat), cur < n → (cur + n - e) % n < fuel →
      tcLoop mem e tag true fuel cur =
        some (decide ((cur + n - tag) % n ≤ (cur + n - e) % n)) := by
  intro fuel
  induction fuel with
  | zero => intro cur hcur hlt; omega
  | succ f ih =>
    intro cur hcur hlt
    obtain ⟨nd, hnd, hid, hnext, hprev⟩ := hmem cur hcur
    have hself : (cur + n - cur) % n = 0 := by
      have e3 : cur + n - cur = n := by omega
      rw [e3, Nat.mod_self]
    simp only [tcLoop]
    rw [hnd]
    simp only [hid, hprev, eq_self_iff_true, if_true]
    by_cases hce : cur = e
    · have h0 : (cur + n - e) % n = 0 := by
        rw [← hce]
        exact hself
      by_cases htc : cur = tag
      · have hp : (cur + n - tag) % n ≤ (cur + n - e) % n := by
          have e2 : (cur + n - tag) % n = 0 := by
            rw [← htc]
            exact hself
          omega
        rw [if_neg (not_not_intro hce), if_pos htc, decide_eq_true hp]
      · have hp : ¬(cur + n - tag) % n ≤ (cur + n - e) % n := by
          rcases mod_dist_or n cur tag hcur ht with ⟨a, b⟩ | ⟨a, b⟩ <;> omega
        rw [if_neg (not_not_intro hce), if_neg htc, decide_eq_false hp]
    · by_cases htc : cur = tag
      · have hp : (cur + n - tag) % n ≤ (cur + n - e) % n := by
          have e2 : (cur + n - tag) % n = 0 := by
            rw [← htc]
            exact hself
          omega
        rw [if_pos hce, if_pos htc, decide_eq_true hp]
      · have hde : ((cur + n - 1) % n + n - e) % n = (cur + n - e) % n - 1 :=
          dist_pred n e cur he hcur (fun h => hce h.symm)
        have hdt : ((cur + n - 1) % n + n - tag) % n =
            (cur + n - tag) % n - 1 :=
          dist_pred n tag cur ht hcur (fun h => htc h.symm)
        have hpe : 1 ≤ (cur + n - e) % n := by
          rcases mod_dist_or n cur e hcur he with ⟨a2, b2⟩ | ⟨a2, b2⟩ <;> omega
        rw [if_pos hce, if_neg htc,
          ih ((cur + n - 1) % n) (Nat.mod_lt _ (by omega)) (by omega)]
        have hiff : (((cur + n - 1) % n + n - tag) % n ≤
              ((cur + n - 1) % n + n - e) % n) ↔
            ((cur + n - tag) % n ≤ (cur + n - e) % n) := by
          rcases mod_dist_or n cur tag hcur ht with ⟨a, b⟩ | ⟨a, b⟩ <;>
            rcases mod_dist_or n cur e hcur he with ⟨c2, d2⟩ | ⟨c2, d2⟩ <;>
              (constructor <;> intro <;> omega)
        rw [decide_eq_decide.mpr hiff]

/-- A target id not present in the ring is never found by the forward
`traversalCheck` walk. -/
theorem tcLoop_fwd_absent (n : Nat) (mem : Nat → Option MenuNode)
    (hmem : ∀ k, k < n → ∃ nd, mem k = some nd ∧ nd.id = k ∧
      nd.next = (k + 1) % n ∧ nd.prev = (k + n - 1) % n)
    (e tag : Nat) (he : e < n) (ht : n ≤ tag) :
    ∀ (fuel : Nat) (cur : Nat), cur < n → (e + n - cur) % n < fuel →
      tcLoop mem e tag false fuel cur = some false := by
  intro fuel
  induction fuel with
  | zero => intro cur hcur hlt; omega
  | succ f ih =>
    intro cur hcur hlt
    obtain ⟨nd, hnd, hid, hnext, hprev⟩ := hmem cur hcur
    simp only [tcLoop]
    rw [hnd]
    simp only [hid, hnext, Bool.false_eq_true, if_false]
    by_cases hce : cur = e
    · rw [if_neg (not_not_intro hce), if_neg (show ¬(cur = tag) by omega)]
    · have hde : (e + n - (cur + 1) % n) % n = (e + n - cur) % n - 1 :=
        dist_succ n e cur he hcur (fun h => hce h.symm)
      have hpe : 1 ≤ (e + n - cur) % n := by
        rcases mod_dist_or n e cur he hcur with ⟨a2, b2⟩ | ⟨a2, b2⟩ <;> omega
      rw [if_pos hce, if_neg (show ¬(cur = tag) by omega),
        ih ((cur + 1) % n) (Nat.mod_lt _ (by omega)) (by omega)]

/-- A target id not present in the ring is never found by the backward
`traversalCheck` walk. -/
theorem tcLoop_bwd_absent (n : Nat) (mem : Nat → Option MenuNode)
    (hmem : ∀ k, k < n → ∃ nd, mem k = some nd ∧ nd.id = k ∧
      nd.next = (k + 1) % n ∧ nd.prev = (k + n - 1) % n)
    (e tag : Nat) (he : e < n) (ht : n ≤ tag) :
    ∀ (fuel : Nat) (cur : Nat), cur < n → (cur + n - e) % n < fuel →
      tcLoop mem e tag true fuel cur = some false := by
  intro fuel
  induction fuel with
  | zero => intro cur hcur hlt; omega
  | succ f ih =>
    intro cur hcur hlt
    obtain ⟨nd, hnd, hid, hnext, hprev⟩ := hmem cur hcur
    simp only [tcLoop]
    rw [hnd]
    simp only [hid, hprev, eq_self_iff_true, if_true]
    by_cases hce : cur = e
    · rw [if_neg (not_not_intro hce), if_neg (show ¬(cur = tag) by omega)]
    · have hde : ((cur + n - 1) % n + n - e) % n = (cur + n - e) % n - 1 :=
        dist_pred n e cur he hcur (fun h => hce h.symm)
      have hpe : 1 ≤ (cur + n - e) % n := by
        rcases mod_dist_or n cur e hcur he with ⟨a2, b2⟩ | ⟨a2, b2⟩ <;> omega
      rw [if_pos hce, if_neg (show ¬(cur = tag) by omega),
        ih ((cur + n - 1) % n) (Nat.mod_lt _ (by omega)) (by omega)]

/-- The repeated moveToNext of clickItem, started on a good state, reaches
the target id after exactly the forward ring distance many rotations. -/
theorem rotateUntil_next_run (n tag : Nat) (ht : tag < n) :
    ∀ (fuel : Nat) (g : Globals) (m : Menu) (s l r : Nat) (p : Nat → Vec3)
      (c : Nat), GoodState g m n s l r p → tag ≠ s →
      (tag + n - s) % n ≤ fuel →
      ∃ g' m', rotateUntil tag true fuel g m c =
          some (g', m', c + (tag + n - s) % n) ∧
        g'.nodeToSelect = some tag := by
  intro fuel
  induction fuel with
  | zero =>
    intro g m s l r p c hgs hne hle
    exfalso
    have hs : s < n := hgs.2.2.2.2.2.1
    rcases mod_dist_or n tag s ht hs with ⟨a, b⟩ | ⟨a, b⟩ <;> omega
  | succ f ih =>
    intro g m s l r p c hgs hne hle
    have hs : s < n := hgs.2.2.2.2.2.1
    have hn : 2 ≤ n := hgs.1
    obtain ⟨g1, heq1, hgs1, _⟩ := moveToNext_spec g m n s l r p hgs
    have hs1 : (s + 1) % n < n := Nat.mod_lt _ (by omega)
    have hnts1 : g1.nodeToSelect = some ((s + 1) % n) :=
      hgs1.2.2.2.2.2.2.1
    have hmem1 := hgs1.2.2.2.2.1
    simp only [rotateUntil]
    rw [if_pos trivial, heq1]
    simp only []
    rw [hnts1]
    simp only []
    rw [hmem1 _ hs1]
    simp only []
    by_cases hc : (s + 1) % n = tag
    · have h1 : (tag + n - s) % n = 1 := by
        rcases succ_mod_or n s hs with ⟨a, b⟩ | ⟨a, b⟩ <;>
          rcases mod_dist_or n tag s ht hs with ⟨d, e⟩ | ⟨d, e⟩ <;> omega
      rw [if_pos hc, h1]
      refine ⟨g1, _, rfl, ?_⟩
      rw [hnts1, hc]
    · have hd1 : (tag + n - (s + 1) % n) % n = (tag + n - s) % n - 1 :=
        dist_succ n tag s ht hs hne
      have hge : 1 ≤ (tag + n - s) % n := by
        rcases mod_dist_or n tag s ht hs with ⟨a, b⟩ | ⟨a, b⟩ <;> omega
      rw [if_neg hc]
      obtain ⟨g', m', heq', hnts'⟩ := ih g1 _ ((s + 1) % n) ((l + 1) % n) l
        (nextSettled n l m.gapBetweenItems p) (c + 1) hgs1
        (fun h => hc h.symm) (by omega)
      refine ⟨g', m', ?_, hnts'⟩
      rw [heq']
      have hcnt : c + 1 + (tag + n - (s + 1) % n) % n =
          c + (tag + n - s) % n := by omega
      rw [hcnt]

/-- The repeated moveToPrev of clickItem, started on a good state, reaches
the target id after exactly the backward ring distance many rotations. -/
theorem rotateUntil_prev_run (n tag : Nat) (ht : tag < n) :
    ∀ (fuel : Nat) (g : Globals) (m : Menu) (s l r : Nat) (p : Nat → Vec3)
      (c : Nat), GoodState g m n s l r p → tag ≠ s →
      (s + n - tag) % n ≤ fuel →
      ∃ g' m', rotateUntil tag false fuel g m c =
          some (g', m', c + (s + n - tag) % n) ∧
        g'.nodeToSelect = some tag := by
  intro fuel
  induction fuel with
  | zero =>
    intro g m s l r p c hgs hne hle
    exfalso
    have hs : s < n := hgs.2.2.2.2.2.1
    rcases mod_dist_or n s tag hs ht with ⟨a, b⟩ | ⟨a, b⟩ <;> omega
  | succ f ih =>
    intro g m s l r p c hgs hne hle
    have hs : s < n := hgs.2.2.2.2.2.1
    have hn : 2 ≤ n := hgs.1
    obtain ⟨g1, heq1, hgs1, _⟩ := moveToPrev_spec g m n s l r p hgs
    have hs1 : (s + n - 1) % n < n := Nat.mod_lt _ (by omega)
    have hnts1 : g1.nodeToSelect = some ((s + n - 1) % n) :=
      hgs1.2.2.2.2.2.2.1
    have hmem1 := hgs1.2.2.2.2.1
    simp only [rotateUntil]
    simp only [Bool.false_eq_true, if_false]
    rw [heq1]
    simp only []
    rw [hnts1]
    simp only []
    rw [hmem1 _ hs1]
    simp only []
    by_cases hc : (s + n - 1) % n = tag
    · have h1 : (s + n - tag) % n = 1 := by
        rcases pred_mod_or n s hs (by omega) with ⟨a, b⟩ | ⟨a, b⟩ <;>
          rcases mod_dist_or n s tag hs ht with ⟨d, e⟩ | ⟨d, e⟩ <;> omega
      rw [if_pos hc, h1]
      refine ⟨g1, _, rfl, ?_⟩
      rw [hnts1, hc]
    · have hd1 : ((s + n - 1) % n + n - tag) % n = (s + n - tag) % n - 1 :=
        dist_pred n tag s ht hs hne
      have hge : 1 ≤ (s + n - tag) % n := by
        rcases mod_dist_or n s tag hs ht with ⟨a, b⟩ | ⟨a, b⟩ <;> omega
      rw [if_neg hc]
      obtain ⟨g', m', heq', hnts'⟩ := ih g1 _ ((s + n - 1) % n) r
        ((r + n - 1) % n) (prevSettled n r m.gapBetweenItems p) (c + 1) hgs1
        (fun h => hc h.symm) (by omega)
      refine ⟨g', m', ?_, hnts'⟩
      rw [heq']
      have hcnt : c + 1 + ((s + n - 1) % n + n - tag) % n =
          c + (s + n - tag) % n := by omega
      rw [hcnt]

/-! Claim theorems. -/

/-- C1 (amended): for every ring of n nodes laid out by repositionNodes with
spacing gap, the node at traversal index k ≤ median = floor(n/2) receives
position k * gap — including the median node itself, which keeps its positive
slot median * gap.  The negation (plus one extra gap when n is odd) is applied
to the running position after the median node is placed, so the nodes at
indices k > median receive (k - 2*median - (n odd ? 1 : 0)) * gap. -/
theorem C1_layout_positions (n : Nat) (gap : Vec3) :
    ∃ g m, buildMenu n (gapProps gap) = some (g, m) ∧
      ∀ k, k < n → (g.mem k).map MenuNode.pos = some (layoutPos n gap k) := by
  refine ⟨_, _, buildMenu_spec n gap, ?_⟩
  intro k hk
  rw [buildMem_lt n gap k hk]
  rfl

/-- C1 witness: the layout theorem evaluated on the 5-ring with unit
spacing. -/
theorem C1_witness :
    ∃ g m, buildMenu 5 (gapProps ⟨1, 0, 0⟩) = some (g, m) ∧
      ∀ k, k < 5 → (g.mem k).map MenuNode.pos =
        some (layoutPos 5 ⟨1, 0, 0⟩ k) :=
  C1_layout_positions 5 ⟨1, 0, 0⟩

/-- C2: after repositionNodes on a ring of n >= 2 nodes, rightEdge is the
node at traversal index median = floor(n/2) and leftEdge is the node at
traversal index median + 1, except in the 2-item case where leftEdge is the
second item (id 1). -/
theorem C2_edge_assignment (n : Nat) (gap : Vec3) (h : 2 ≤ n) :
    ∃ g m, buildMenu n (gapProps gap) = some (g, m) ∧
      g.rightEdge = some (n / 2) ∧
      (g.mem (n / 2)).map MenuNode.id = some (n / 2) ∧
      g.leftEdge = some (if n = 2 then 1 else n / 2 + 1) ∧
      (g.mem (if n = 2 then 1 else n / 2 + 1)).map MenuNode.id =
        some (if n = 2 then 1 else n / 2 + 1) := by
  refine ⟨_, _, buildMenu_spec n gap, ?_, ?_, ?_, ?_⟩
  · exact reOf_eval n (by omega)
  · rw [buildMem_lt n gap _ (by omega)]
    rfl
  · exact leOf_eval n h
  · rw [buildMem_lt n gap _ (by split_ifs <;> omega)]
    rfl

/-- C2 witness: the edge-assignment theorem evaluated on the 5-ring. -/
theorem C2_witness :
    ∃ g m, buildMenu 5 (gapProps ⟨1, 0, 0⟩) = some (g, m) ∧
      g.rightEdge = some (5 / 2) ∧
      (g.mem (5 / 2)).map MenuNode.id = some (5 / 2) ∧
      g.leftEdge = some (if 5 = 2 then 1 else 5 / 2 + 1) ∧
      (g.mem (if 5 = 2 then 1 else 5 / 2 + 1)).map MenuNode.id =
        some (if 5 = 2 then 1 else 5 / 2 + 1) :=
  C2_edge_assignment 5 ⟨1, 0, 0⟩ (by decide)

/-- C3: after adding 5 items (ids 0-4) to a fresh menu and opening it, the
selection is id 0 with rightEdge = id 2 and leftEdge = id 3; three successive
moveToNext calls make the selection id 1, then id 2, then id 3, the edges
advancing by one node per rotation (rightEdge 2,3,4,0 and leftEdge 3,4,0,1). -/
theorem C3_five_item_scenario :
    (openAfter (buildMenu 5 none)).map selIdOf = some (some 0) ∧
    (openAfter (buildMenu 5 none)).map rightIdOf = some (some 2) ∧
    (openAfter (buildMenu 5 none)).map leftIdOf = some (some 3) ∧
    (nextAfter (openAfter (buildMenu 5 none))).map selIdOf = some (some 1) ∧
    (nextAfter (openAfter (buildMenu 5 none))).map rightIdOf = some (some 3) ∧
    (nextAfter (openAfter (buildMenu 5 none))).map leftIdOf = some (some 4) ∧
    (nextAfter (nextAfter (openAfter (buildMenu 5 none)))).map selIdOf = some (some 2) ∧
    (nextAfter (nextAfter (openAfter (buildMenu 5 none)))).map rightIdOf = some (some 4) ∧
    (nextAfter (nextAfter (openAfter (buildMenu 5 none)))).map leftIdOf = some (some 0) ∧
    (nextAfter (nextAfter (nextAfter (openAfter (buildMenu 5 none))))).map selIdOf = some (some 3) ∧
    (nextAfter (nextAfter (nextAfter (openAfter (buildMenu 5 none))))).map rightIdOf = some (some 0) ∧
    (nextAfter (nextAfter (nextAfter (openAfter (buildMenu 5 none))))).map leftIdOf = some (some 1) := by
  decide

/-- C1 counterexample: on the 4-item ring with the default unit spacing, the
node at traversal index 2 = median ends at position (2,0,0) — the positive,
unflipped slot — not at the negation (-2,0,0) the claim assigns it (the
negation is applied to the running position after the median node is placed,
so it first affects index 3, which lands at (-1,0,0)). -/
theorem C1_cex_median_not_negated :
    (buildMenu 4 none).map (fun s => posOf s 2) = some (some ⟨2, 0, 0⟩) ∧
    (buildMenu 4 none).map (fun s => posOf s 3) = some (some ⟨-1, 0, 0⟩) ∧
    some (Vec3.mk 2 0 0) ≠ some (Vec3.mk (-2) 0 0) ∧
    some (Vec3.mk (-1) 0 0) ≠ some (Vec3.mk 3 0 0) := by
  decide

/-- C4 counterexample: immediately after the initial layout of a freshly
built 2-item ring, leftEdge and rightEdge are both the node with id 1, whose
prev is node 0 — so rightEdge ≠ leftEdge.prev even though the ring has 2
members. -/
theorem C4_cex_two_item_layout :
    (buildMenu 2 none).map (fun s => s.1.leftEdge) = some (some 1) ∧
    (buildMenu 2 none).map (fun s => s.1.rightEdge) = some (some 1) ∧
    (buildMenu 2 none).map (fun s => (s.1.mem 1).map (fun nd => nd.prev)) =
      some (some 0) ∧
    some (1 : Nat) ≠ some 0 := by
  decide

/-- C5 counterexample: on the freshly laid-out, opened 2-item ring,
moveToNext followed by moveToPrev restores the selection (id 0) and leftEdge
(id 1), but moves rightEdge from node 1 to node 0 — the edge pair is not
restored to its pre-rotation identity. -/
theorem C5_cex_two_item_fresh :
    (openAfter (buildMenu 2 none)).map rightIdOf = some (some 1) ∧
    (prevAfter (nextAfter (openAfter (buildMenu 2 none)))).map rightIdOf =
      some (some 0) ∧
    (prevAfter (nextAfter (openAfter (buildMenu 2 none)))).map selIdOf =
      some (some 0) ∧
    (prevAfter (nextAfter (openAfter (buildMenu 2 none)))).map leftIdOf =
      some (some 1) ∧
    some (0 : Nat) ≠ some 1 := by
  decide

/-- C6 counterexample: build 2 items, open, then close.  The menu is closed,
yet node 0 still carries selected = true — close() never clears the flags, so
the closed menu does not have zero selected nodes. -/
theorem C6_cex_close_keeps_selection :
    (closeAfter (openAfter (buildMenu 2 none))).map (fun s => s.2.opened) =
      some false ∧
    (closeAfter (openAfter (buildMenu 2 none))).map (fun s => selFlagOf s 0) =
      some (some true) ∧
    some true ≠ some false := by
  decide

/-- C7: the code cannot honour a revolving flag disabled through the
constructor.  `this.revolvingMenu = (_properties && _properties.revolvingMenu)
? _properties.revolvingMenu : true` (line 473) treats the stored `false` as
falsy and falls back to `true`.  Constructing with {revolvingMenu: false},
adding 3 items and opening, three moveToNext calls advance the selection
1, 2 and then 0: the third call wraps past the last item instead of being the
no-op the non-revolving bound promises. -/
theorem C7_nonrevolving_bug :
    (Menu.new nonRevolvingProps freshGlobals).2.revolvingMenu = true ∧
    (nextAfter (openAfter (buildMenu 3 nonRevolvingProps))).map
      (fun s => s.2.itemSelected) = some 1 ∧
    (nextAfter (nextAfter (openAfter (buildMenu 3 nonRevolvingProps)))).map
      (fun s => s.2.itemSelected) = some 2 ∧
    (nextAfter (nextAfter (nextAfter (openAfter
      (buildMenu 3 nonRevolvingProps))))).map
      (fun s => s.2.itemSelected) = some 0 ∧
    some (0 : Nat) ≠ some 2 := by
  decide

/-- C8 counterexample: on the opened 3-item ring, resolving a click whose
target id 7 is not present in the ring produces the silent `noAction`
outcome — both traversalCheck arcs answer false and the code schedules no
rotation, but no UnknownTarget condition of any kind is raised. -/
theorem C8_cex_silent_noop :
    ((openAfter (buildMenu 3 none)).bind
      (fun s => Menu.clickResolve s.1 s.2 7)).map (fun r => r.2.2) =
      some ClickOutcome.noAction ∧
    ClickOutcome.noAction ≠ ClickOutcome.unknownTarget := by
  decide

/-- C9 counterexample: selectItem issued on an opened single-item ring is not
a no-op: the guard `(!this.opened || !this.enabled)` has no ring-size check,
so the scale pulse is scheduled and the item's callback will fire (outcome
`performed 0`), instead of the claim's "not performed" report. -/
theorem C9_cex_select_one_item :
    ((openAfter (buildMenu 1 none)).bind
      (fun s => Menu.selectItem s.1 s.2)).map (fun r => r.2.2) =
      some (SelectOutcome.performed 0) ∧
    SelectOutcome.performed 0 ≠ SelectOutcome.notPerformed := by
  decide

/-- C4 (amended): on every good ring state, after a completed moveToNext and
after a completed moveToPrev the edge references satisfy
rightEdge = leftEdge.prev; after the initial layout the seam identity holds
for every ring of at least 3 members, but not for 2 (both edges are then the
node with id 1, whose prev is node 0). -/
theorem C4_seam_invariant :
    (∀ (g : Globals) (m : Menu) (n s l r : Nat) (p : Nat → Vec3),
      GoodState g m n s l r p →
      ∃ g' m', Menu.moveToNext g m = some (g', m') ∧
        ∃ le re, g'.leftEdge = some le ∧ g'.rightEdge = some re ∧
          (g'.mem le).map MenuNode.prev = some re) ∧
    (∀ (g : Globals) (m : Menu) (n s l r : Nat) (p : Nat → Vec3),
      GoodState g m n s l r p →
      ∃ g' m', Menu.moveToPrev g m = some (g', m') ∧
        ∃ le re, g'.leftEdge = some le ∧ g'.rightEdge = some re ∧
          (g'.mem le).map MenuNode.prev = some re) ∧
    (∀ (n : Nat) (gap : Vec3), 3 ≤ n →
      ∃ g m, buildMenu n (gapProps gap) = some (g, m) ∧
        ∃ le re, g.leftEdge = some le ∧ g.rightEdge = some re ∧
          (g.mem le).map MenuNode.prev = some re) := by
  refine ⟨?_, ?_, ?_⟩
  · intro g m n s l r p hgs
    have hn2 : 2 ≤ n := hgs.1
    obtain ⟨g', heq, hgs', _⟩ := moveToNext_spec g m n s l r p hgs
    obtain ⟨_, _, _, _, hmem, _, _, hle, hl, hre, hrlt, _⟩ := hgs'
    refine ⟨g', _, heq, (l + 1) % n, l, hle, hre, ?_⟩
    rw [hmem _ hl]
    simp only [Option.map_some']
    rw [mod_prev_succ n l (by omega) hrlt]
  · intro g m n s l r p hgs
    obtain ⟨g', heq, hgs', _⟩ := moveToPrev_spec g m n s l r p hgs
    obtain ⟨_, _, _, _, hmem, _, _, hle, hl, hre, _, _⟩ := hgs'
    refine ⟨g', _, heq, r, (r + n - 1) % n, hle, hre, ?_⟩
    rw [hmem _ hl]
    simp only [Option.map_some']
  · intro n gap h3
    refine ⟨buildGlobals n gap, buildInst n gap, buildMenu_spec n gap,
      n / 2 + 1, n / 2, ?_, ?_, ?_⟩
    · show leOf n = some (n / 2 + 1)
      rw [leOf_eval n (by omega), if_neg (by omega)]
    · show reOf n = some (n / 2)
      exact reOf_eval n (by omega)
    · show ((buildGlobals n gap).mem (n / 2 + 1)).map MenuNode.prev =
        some (n / 2)
      simp only [buildGlobals]
      rw [if_pos (by omega)]
      simp only [buildNode, Option.map_some']
      rw [stdPrev_eq n (n / 2 + 1) (by omega) (by omega)]
      exact congrArg some (by omega)

/-- C4 witness: the seam identity after moveToNext and after moveToPrev on
the opened 4-ring, and after the initial layout of the 5-ring. -/
theorem C4_witness :
    (∃ g' m', Menu.moveToNext wOpen4.1 wOpen4.2 = some (g', m') ∧
      ∃ le re, g'.leftEdge = some le ∧ g'.rightEdge = some re ∧
        (g'.mem le).map MenuNode.prev = some re) ∧
    (∃ g' m', Menu.moveToPrev wOpen4.1 wOpen4.2 = some (g', m') ∧
      ∃ le re, g'.leftEdge = some le ∧ g'.rightEdge = some re ∧
        (g'.mem le).map MenuNode.prev = some re) ∧
    (∃ g m, buildMenu 5 (gapProps ⟨1, 0, 0⟩) = some (g, m) ∧
      ∃ le re, g.leftEdge = some le ∧ g.rightEdge = some re ∧
        (g.mem le).map MenuNode.prev = some re) :=
  ⟨C4_seam_invariant.1 wOpen4.1 wOpen4.2 4 0 3 2
      (fun k => layoutPos 4 ⟨1, 0, 0⟩ k) (by decide),
   C4_seam_invariant.2.1 wOpen4.1 wOpen4.2 4 0 3 2
      (fun k => layoutPos 4 ⟨1, 0, 0⟩ k) (by decide),
   C4_seam_invariant.2.2 5 ⟨1, 0, 0⟩ (by decide)⟩

/-- C5 (amended): on a good ring state whose edges sit at the standard seam
(rightEdge = leftEdge's ring predecessor — true of every state produced by a
completed rotation, and of the initial layout exactly when n ≥ 3),
moveToNext followed by moveToPrev restores nodeToSelect, leftEdge, rightEdge
and every node's selected flag; without the seam condition the 2-ring's
fresh layout is a counterexample. -/
theorem C5_rotation_symmetry (g : Globals) (m : Menu) (n s l r : Nat)
    (p : Nat → Vec3) (hgs : GoodState g m n s l r p)
    (hseam : r = (l + n - 1) % n) :
    ∃ g1 m1 g2 m2,
      Menu.moveToNext g m = some (g1, m1) ∧
      Menu.moveToPrev g1 m1 = some (g2, m2) ∧
      g2.nodeToSelect = g.nodeToSelect ∧
      g2.leftEdge = g.leftEdge ∧ g2.rightEdge = g.rightEdge ∧
      ∀ k, (g2.mem k).map MenuNode.selected =
        (g.mem k).map MenuNode.selected := by
  obtain ⟨hn, halloc, hnid, hfirst, hmem, hs, hnts, hle, hl, hre, hr, hop,
    hen, hrev, hmov⟩ := hgs
  obtain ⟨g1, heq1, hgs1, _, _, _, hframe1⟩ :=
    moveToNext_spec g m n s l r p
      ⟨hn, halloc, hnid, hfirst, hmem, hs, hnts, hle, hl, hre, hr, hop,
        hen, hrev, hmov⟩
  obtain ⟨g2, heq2, hgs2, _, _, _, hframe2⟩ :=
    moveToPrev_spec g1 _ n ((s + 1) % n) ((l + 1) % n) l
      (nextSettled n l m.gapBetweenItems p) hgs1
  obtain ⟨_, _, _, _, hmem2, _, hnts2, hle2, _, hre2, _, _⟩ := hgs2
  have hsid : ((s + 1) % n + n - 1) % n = s :=
    mod_prev_succ n s (by omega) hs
  refine ⟨g1, _, g2, _, heq1, heq2, ?_, ?_, ?_, ?_⟩
  · rw [hnts2, hnts, hsid]
  · rw [hle2, hle]
  · rw [hre2, hre, hseam]
  · intro k
    by_cases hk : k < n
    · rw [hmem2 k hk, hmem k hk]
      simp only [Option.map_some', hsid]
    · rw [hframe2 k (by omega), hframe1 k (by omega)]

/-- C9 (amended): moveToNext and moveToPrev issued while the ring has fewer
than 2 nodes (`nextNodeID <= 1`, covering the empty and the single-item ring)
only clear `keyPressed` and leave every other piece of module and instance
state unchanged — a silent no-op, not an error; and selectItem is likewise a
no-op on a closed or disabled menu.  But selectItem carries no ring-size
guard at all: on an open, enabled single-item ring it performs the selection
(see the counterexample), so "every navigation command" overstates the code. -/
theorem C9_small_ring_noops :
    (∀ (g : Globals) (m : Menu), g.nextNodeID ≤ 1 →
      Menu.moveToNext g m = some ({ g with keyPressed := false }, m)) ∧
    (∀ (g : Globals) (m : Menu), g.nextNodeID ≤ 1 →
      Menu.moveToPrev g m = some ({ g with keyPressed := false }, m)) ∧
    (∀ (g : Globals) (m : Menu), m.opened = false ∨ m.enabled = false →
      Menu.selectItem g m =
        some ({ g with keyPressed := false }, m,
          SelectOutcome.notPerformed)) := by
  refine ⟨?_, ?_, ?_⟩
  · intro g m h
    unfold Menu.moveToNext
    rw [if_pos (Or.inr (Or.inl h))]
  · intro g m h
    unfold Menu.moveToPrev
    rw [if_pos (Or.inr (Or.inl h))]
  · intro g m h
    unfold Menu.selectItem
    rw [if_pos h]

/-- C9 witness: the three no-ops evaluated on the fresh module state (an
empty ring) with a freshly constructed, not yet opened menu. -/
theorem C9_witness :
    Menu.moveToNext freshGlobals (Menu.new none freshGlobals).2 =
      some ({ freshGlobals with keyPressed := false },
        (Menu.new none freshGlobals).2) ∧
    Menu.moveToPrev freshGlobals (Menu.new none freshGlobals).2 =
      some ({ freshGlobals with keyPressed := false },
        (Menu.new none freshGlobals).2) ∧
    Menu.selectItem freshGlobals (Menu.new none freshGlobals).2 =
      some ({ freshGlobals with keyPressed := false },
        (Menu.new none freshGlobals).2, SelectOutcome.notPerformed) :=
  ⟨C9_small_ring_noops.1 freshGlobals (Menu.new none freshGlobals).2
      (by decide),
   C9_small_ring_noops.2.1 freshGlobals (Menu.new none freshGlobals).2
      (by decide),
   C9_small_ring_noops.2.2 freshGlobals (Menu.new none freshGlobals).2
      (Or.inl rfl)⟩

/-- C10: the ring's navigation state lives in module-level variables shared
by all Menu instances: constructing a new Menu resets the shared node-id
counter to 0 and clears the shared selection and edge references out from
under every existing menu; the next add() on any instance then reassigns the
shared firstNode to the new node; concretely, after a 3-ring is built and
opened through one instance, a second instance is constructed and two items
are added through it, a moveToNext issued through the FIRST instance
navigates the second ring (selection lands on node 4, the second ring's
second node). -/
theorem C10_shared_module_state :
    (∀ (props : Option MenuProps) (g : Globals),
      (Menu.new props g).1 = { g with nextNodeID := 0, nodeToSelect := none,
                                      leftEdge := none,
                                      rightEdge := none }) ∧
    (∀ (g : Globals) (m : Menu), g.nextNodeID = 0 → m.itemTray = [] →
      (Menu.add g m).map (fun s => s.1.firstNode) = some (some g.alloc) ∧
      (Menu.add g m).map (fun s => s.1.nodeToSelect) = some (some g.alloc) ∧
      (Menu.add g m).map (fun s => s.1.nextNodeID) = some 1) ∧
    (crossStates.map (fun t => t.1.nextNodeID) = some 0 ∧
     crossStates.map (fun t => t.1.nodeToSelect) = some none ∧
     crossStates.map (fun t => t.1.leftEdge) = some none ∧
     crossNav.map (fun s => s.1.nodeToSelect) = some (some 4)) := by
  refine ⟨?_, ?_, by decide⟩
  · intro props g
    rfl
  · intro g m h htray
    simp [Menu.add, Menu.repositionNodes, repoLoop, upd, h, htray]

/-- C10 witness: the first-add reassignment evaluated on the fresh module
state with a freshly constructed menu. -/
theorem C10_witness :
    (Menu.add freshGlobals (Menu.new none freshGlobals).2).map
      (fun s => s.1.firstNode) = some (some freshGlobals.alloc) ∧
    (Menu.add freshGlobals (Menu.new none freshGlobals).2).map
      (fun s => s.1.nodeToSelect) = some (some freshGlobals.alloc) ∧
    (Menu.add freshGlobals (Menu.new none freshGlobals).2).map
      (fun s => s.1.nextNodeID) = some 1 :=
  C10_shared_module_state.2.1 freshGlobals (Menu.new none freshGlobals).2
    (by decide) (by decide)

/-- C5 witness: rotation symmetry evaluated on the opened 4-ring, whose
edges 3 and 2 sit at the standard seam. -/
theorem C5_witness :
    ∃ g1 m1 g2 m2,
      Menu.moveToNext wOpen4.1 wOpen4.2 = some (g1, m1) ∧
      Menu.moveToPrev g1 m1 = some (g2, m2) ∧
      g2.nodeToSelect = wOpen4.1.nodeToSelect ∧
      g2.leftEdge = wOpen4.1.leftEdge ∧ g2.rightEdge = wOpen4.1.rightEdge ∧
      ∀ k, (g2.mem k).map MenuNode.selected =
        (wOpen4.1.mem k).map MenuNode.selected :=
  C5_rotation_symmetry wOpen4.1 wOpen4.2 4 0 3 2
    (fun k => layoutPos 4 ⟨1, 0, 0⟩ k) (by decide) (by decide)

/-- C6 (amended): starting from any standard ring state (a built ring,
opened or closed), every sequence of open / close / rotateNext / rotatePrev
/ select commands executes without error and always leaves exactly one node
with `selected = true` — including while the menu is closed: close() does
not clear the flags, so the claimed "zero selected nodes after close" does
not hold (see the counterexample). -/
theorem C6_single_selection (g : Globals) (m : Menu) (n s l r : Nat)
    (p : Nat → Vec3) (cs : List Cmd) (h : RingState g m n s l r p) :
    ∃ g' m', runCmds cs (g, m) = some (g', m') ∧ selCount g' n = 1 := by
  obtain ⟨g', m', s', l', r', p', heq, h'⟩ :=
    runCmds_preserve cs g m n s l r p h
  refine ⟨g', m', heq, selCount_eq_one g' n s' h'.2.2.2.2.2.1 ?_⟩
  intro k hk
  rw [h'.2.2.2.2.1 k hk]
  rfl

/-- C6 witness: a six-command sequence (rotate, select, close, rotate while
closed, reopen, rotate) on the opened 4-ring keeps exactly one selected
node. -/
theorem C6_witness :
    ∃ g' m',
      runCmds [Cmd.next, Cmd.select, Cmd.cls, Cmd.prev, Cmd.opn, Cmd.prev]
        (wOpen4.1, wOpen4.2) = some (g', m') ∧ selCount g' 4 = 1 :=
  C6_single_selection wOpen4.1 wOpen4.2 4 0 3 2
    (fun k => layoutPos 4 ⟨1, 0, 0⟩ k)
    [Cmd.next, Cmd.select, Cmd.cls, Cmd.prev, Cmd.opn, Cmd.prev] (by decide)

/-- C8 (amended): the jump-to-target resolution is bounded but silent.  On a
good ring state (seam edges, no pending click debounce): for a target id not
present in the ring, clickItem returns with module and instance state
unchanged and no rotation scheduled — but it raises no UnknownTarget
condition of any kind, it is a silent no-op (see the counterexample); for a
target id present in the n-ring, the resolution terminates after at most
n - 1 single-step rotations (zero when the target is already selected, in
which case the item is selected instead), ending with the target node in
`nodeToSelect`. -/
theorem C8_bounded_resolver :
    (∀ (g : Globals) (m : Menu) (n s l r : Nat) (p : Nat → Vec3) (tag : Nat),
      GoodState g m n s l r p → g.clicked = false → n ≤ tag →
      Menu.clickResolve g m tag = some (g, m, ClickOutcome.noAction)) ∧
    (∀ (g : Globals) (m : Menu) (n s l r : Nat) (p : Nat → Vec3) (tag : Nat),
      GoodState g m n s l r p → r = (l + n - 1) % n → g.clicked = false →
      tag < n →
      ∃ g' m' out, Menu.clickResolve g m tag = some (g', m', out) ∧
        g'.nodeToSelect = some tag ∧
        (out = ClickOutcome.selectAction tag ∨
         ∃ k, 1 ≤ k ∧ k ≤ n - 1 ∧
           (out = ClickOutcome.rotatedNext k ∨
            out = ClickOutcome.rotatedPrev k))) := by
  constructor
  · intro g m n s l r p tag hgs hck htag
    obtain ⟨hn, halloc, hnid, hfirst, hmem, hs, hnts, hle, hl, hre, hr, hop,
      hen, hrev, hmov⟩ := hgs
    have hmem' : ∀ k, k < n → ∃ nd, g.mem k = some nd ∧ nd.id = k ∧
        nd.next = (k + 1) % n ∧ nd.prev = (k + n - 1) % n :=
      fun k hk => ⟨_, hmem k hk, rfl, rfl, rfl⟩
    unfold Menu.clickResolve
    rw [if_neg (by simp [hop, hck]), hnts]
    simp only []
    rw [hmem s hs]
    simp only []
    rw [if_neg (show ¬(s = tag) by omega)]
    unfold traversalCheck
    rw [hre, hle]
    simp only []
    rw [hmem r hr, hmem l hl]
    simp only []
    rw [halloc]
    have hb1 : (r + n - s) % n < n + 1 := by
      have := Nat.mod_lt (r + n - s) (show 0 < n by omega)
      omega
    have hb2 : (s + n - l) % n < n + 1 := by
      have := Nat.mod_lt (s + n - l) (show 0 < n by omega)
      omega
    rw [tcLoop_fwd_absent n g.mem hmem' r tag hr htag (n + 1) s hs hb1]
    simp only []
    rw [tcLoop_bwd_absent n g.mem hmem' l tag hl htag (n + 1) s hs hb2]
  · intro g m n s l r p tag hgs hseam hck htg
    obtain ⟨hn, halloc, hnid, hfirst, hmem, hs, hnts, hle, hl, hre, hr, hop,
      hen, hrev, hmov⟩ := hgs
    have hmem' : ∀ k, k < n → ∃ nd, g.mem k = some nd ∧ nd.id = k ∧
        nd.next = (k + 1) % n ∧ nd.prev = (k + n - 1) % n :=
      fun k hk => ⟨_, hmem k hk, rfl, rfl, rfl⟩
    unfold Menu.clickResolve
    rw [if_neg (by simp [hop, hck]), hnts]
    simp only []
    rw [hmem s hs]
    simp only []
    by_cases hst : s = tag
    · rw [if_pos hst]
      unfold Menu.selectItem
      rw [if_neg (by simp [hop, hen]), hnts]
      simp only []
      rw [hmem s hs]
      simp only []
      refine ⟨g, m, ClickOutcome.selectAction s, rfl, ?_, Or.inl ?_⟩
      · rw [hnts, hst]
      · rw [hst]
    · rw [if_neg hst]
      unfold traversalCheck
      rw [hre, hle]
      simp only []
      rw [hmem r hr, hmem l hl]
      simp only []
      rw [halloc]
      have hb1 : (r + n - s) % n < n + 1 := by
        have := Nat.mod_lt (r + n - s) (show 0 < n by omega)
        omega
      have hb2 : (s + n - l) % n < n + 1 := by
        have := Nat.mod_lt (s + n - l) (show 0 < n by omega)
        omega
      rw [tcLoop_fwd_run n g.mem hmem' r tag hr htg (n + 1) s hs hb1]
      have hgs2 : GoodState g m n s l r p :=
        ⟨hn, halloc, hnid, hfirst, hmem, hs, hnts, hle, hl, hre, hr, hop,
          hen, hrev, hmov⟩
      have hne : tag ≠ s := fun h => hst h.symm
      have hdf1 : 1 ≤ (tag + n - s) % n := by
        rcases mod_dist_or n tag s htg hs with ⟨a, b⟩ | ⟨a, b⟩ <;> omega
      have hdfn : (tag + n - s) % n < n :=
        Nat.mod_lt _ (show 0 < n by omega)
      by_cases hP : (tag + n - s) % n ≤ (r + n - s) % n
      · rw [decide_eq_true hP]
        simp only []
        obtain ⟨g', m', heqr, hnts'⟩ := rotateUntil_next_run n tag htg
          (n + 1) g m s l r p 0 hgs2 hne (by omega)
        rw [heqr]
        refine ⟨g', m', ClickOutcome.rotatedNext (0 + (tag + n - s) % n),
          rfl, hnts', Or.inr ⟨(tag + n - s) % n, by omega, by omega,
            Or.inl ?_⟩⟩
        rw [Nat.zero_add]
      · rw [decide_eq_false hP]
        simp only []
        rcases pred_mod_or n l hl (by omega) with ⟨a0, b0⟩ | ⟨a0, b0⟩ <;>
          rw [b0] at hseam
        all_goals {
          have hQ : (s + n - tag) % n ≤ (s + n - l) % n := by
            rcases mod_dist_or n tag s htg hs with ⟨a1, b1⟩ | ⟨a1, b1⟩ <;>
              rcases mod_dist_or n r s hr hs with ⟨a2, b2⟩ | ⟨a2, b2⟩ <;>
                rcases mod_dist_or n s tag hs htg with ⟨a3, b3⟩ | ⟨a3, b3⟩ <;>
                  rcases mod_dist_or n s l hs hl with ⟨a4, b4⟩ | ⟨a4, b4⟩ <;>
                    omega
          have hdb1 : 1 ≤ (s + n - tag) % n := by
            rcases mod_dist_or n s tag hs htg with ⟨a, b⟩ | ⟨a, b⟩ <;> omega
          have hdbn : (s + n - tag) % n < n :=
            Nat.mod_lt _ (show 0 < n by omega)
          rw [tcLoop_bwd_run n g.mem hmem' l tag hl htg (n + 1) s hs hb2,
            decide_eq_true hQ]
          simp only []
          obtain ⟨g', m', heqr, hnts'⟩ := rotateUntil_prev_run n tag htg
            (n + 1) g m s l r p 0 hgs2 hne (by omega)
          rw [heqr]
          refine ⟨g', m', ClickOutcome.rotatedPrev (0 + (s + n - tag) % n),
            rfl, hnts', Or.inr ⟨(s + n - tag) % n, by omega, by omega,
              Or.inr ?_⟩⟩
          rw [Nat.zero_add] }

/-- C8 witness: the resolver evaluated on the opened 4-ring — a click on
absent id 9 is the silent no-op, a click on present id 2 ends with node 2
in `nodeToSelect` after at most 3 rotations. -/
theorem C8_witness :
    Menu.clickResolve wOpen4.1 wOpen4.2 9 =
      some (wOpen4.1, wOpen4.2, ClickOutcome.noAction) ∧
    (∃ g' m' out, Menu.clickResolve wOpen4.1 wOpen4.2 2 =
        some (g', m', out) ∧
      g'.nodeToSelect = some 2 ∧
      (out = ClickOutcome.selectAction 2 ∨
       ∃ k, 1 ≤ k ∧ k ≤ 3 ∧
         (out = ClickOutcome.rotatedNext k ∨
          out = ClickOutcome.rotatedPrev k))) :=
  ⟨C8_bounded_resolver.1 wOpen4.1 wOpen4.2 4 0 3 2
      (fun k => layoutPos 4 ⟨1, 0, 0⟩ k) 9 (by decide) (by decide)
      (by decide),
   C8_bounded_resolver.2 wOpen4.1 wOpen4.2 4 0 3 2
      (fun k => layoutPos 4 ⟨1, 0, 0⟩ k) 2 (by decide) (by decide)
      (by decide) (by decide)⟩

end ThreeMenu
